import Mathlib

set_option maxRecDepth 100000

/-!
Shallow embedding of `aicbTools.py` (AICB/EPS outline reader + writer).

The reader pipeline (`drawAICBOutlines`) and the writer (`AICBPen`) are
translated line by line from the Python source.  Strings are modelled as
`List Char`; Python floats are modelled exactly with `ℚ` (all arithmetic
performed by the program on the inputs considered is exact); Python
exceptions are modelled with `Except PyErr`.
-/

namespace AicbTools

/-! ## Python string primitives -/

/-- Python's `\s` character class, restricted to the ASCII whitespace
characters that can actually occur here. -/
def pyIsSpace (c : Char) : Bool :=
  c == ' ' || c == '\t' || c == '\n' || c == '\r' || c == '\x0b' || c == '\x0c'

/-- The regex character class `[-\d\.]` used by every operand group of the
token regexes in the source. -/
def isNumChar (c : Char) : Bool :=
  c.isDigit || c == '-' || c == '.'

/-- Line-break characters recognised by Python's `str.splitlines`
(ASCII subset). -/
def isNLChar (c : Char) : Bool :=
  c == '\n' || c == '\r' || c == '\x0b' || c == '\x0c'

/-- Worker for `pySplitLines`; `acc` is the current line, reversed. -/
def splitLinesGo (acc : List Char) : List Char → List (List Char)
  | [] => [acc.reverse]
  | c :: rest =>
    if c == '\r' then
      match rest with
      | '\n' :: r2 => acc.reverse :: (match r2 with | [] => [] | _ => splitLinesGo [] r2)
      | r2 => acc.reverse :: (match r2 with | [] => [] | _ => splitLinesGo [] r2)
    else if isNLChar c then
      acc.reverse :: (match rest with | [] => [] | _ => splitLinesGo [] rest)
    else
      splitLinesGo (c :: acc) rest

/-- Python's `str.splitlines` (no trailing empty line, `""` gives `[]`). -/
def pySplitLines (l : List Char) : List (List Char) :=
  match l with
  | [] => []
  | _ => splitLinesGo [] l

/-- Python's `'\n'.join(...)`. -/
def joinNL (ls : List (List Char)) : List Char :=
  List.intercalate ['\n'] ls

/-- Python's `s.split(' ')`: split at every single space, keeping empty
parts (`"".split(' ') == ['']`). -/
def pySplitSpace : List Char → List (List Char)
  | [] => [[]]
  | c :: rest =>
    if c == ' ' then [] :: pySplitSpace rest
    else
      match pySplitSpace rest with
      | g :: gs => (c :: g) :: gs
      | [] => [[c]]

/-- Numeric value of a digit string (most significant digit first). -/
def natOfDigits (ds : List Char) : ℕ :=
  ds.foldl (fun acc c => 10 * acc + (c.toNat - '0'.toNat)) 0

/-- Strip `pyIsSpace` characters from both ends (what Python's `int(...)`
does before parsing). -/
def stripWS (l : List Char) : List Char :=
  ((l.dropWhile pyIsSpace).reverse.dropWhile pyIsSpace).reverse

/-- Python's `int(s)` on a string: optional sign then nonempty digits,
surrounding whitespace allowed; anything else raises (here: `none`). -/
def pyInt (l : List Char) : Option ℤ :=
  match stripWS l with
  | '-' :: ds =>
    if !ds.isEmpty && ds.all Char.isDigit then some (-(natOfDigits ds : ℤ)) else none
  | '+' :: ds =>
    if !ds.isEmpty && ds.all Char.isDigit then some ((natOfDigits ds : ℤ)) else none
  | ds =>
    if !ds.isEmpty && ds.all Char.isDigit then some ((natOfDigits ds : ℤ)) else none

/-- Python's `s.split('.')[0]`: the prefix before the first dot. -/
def takeBeforeDot (l : List Char) : List Char :=
  l.takeWhile (· != '.')

/-- Python's `float(s)` on the operand strings the token regexes can
produce (characters from `[-\d\.]`, possibly empty): optional `-` sign,
then `digits`, `digits.digits?` or `.digits`.  Anything else raises
`ValueError` (here: `none`).  The value is exact (`ℚ`). -/
def pyFloat (l : List Char) : Option ℚ :=
  let p : Bool × List Char := match l with
    | '-' :: t => (true, t)
    | t => (false, t)
  let sgn : ℚ := if p.1 then -1 else 1
  let ip := p.2.takeWhile Char.isDigit
  match p.2.dropWhile Char.isDigit with
  | [] => if ip.isEmpty then none else some (sgn * (natOfDigits ip : ℚ))
  | '.' :: fp =>
    if fp.all Char.isDigit && !(ip.isEmpty && fp.isEmpty) then
      some (sgn * ((natOfDigits ip : ℚ) + (natOfDigits fp : ℚ) / (10 : ℚ) ^ fp.length))
    else none
  | _ => none

/-! ## Tokenizer / classifier

Each token regex in the source has the shape
`^(G₁)\s(G₂)\s…(Gₙ)\s[OPS]$` where every group `Gᵢ` is `[-\d\.]+`
(or `[-\d\.]*` for the third group of `curveto_RE`).  Because the operand
class and `\s` are disjoint, the regex is equivalent to the following
deterministic maximal-munch parser (proved against the nondeterministic
decomposition semantics in `matchRuns_isSome_iff` below). -/

/-- Match a line against the group/operator shape of one token regex.
`gs` lists the groups (`true` = group is `+`, must be nonempty;
`false` = group is `*`); `ops` is the trailing operator character class.
Returns the matched groups. -/
def matchRuns (gs : List Bool) (ops : List Char) (l : List Char) :
    Option (List (List Char)) :=
  match gs with
  | [] =>
    match l with
    | [c] => if c ∈ ops then some [] else none
    | _ => none
  | g :: rest =>
    let r := l.takeWhile isNumChar
    if g && r.isEmpty then none
    else
      match l.dropWhile isNumChar with
      | c :: tail =>
        if pyIsSpace c then (matchRuns rest ops tail).map (r :: ·) else none
      | [] => none

/-- The source's `moveto_RE`: `^([-\d\.]+)\s([-\d\.]+)\s[m]$`. -/
def matchMoveto (l : List Char) : Option (List (List Char)) :=
  matchRuns [true, true] ['m'] l

/-- The source's `lineto_RE`: note the character class `[l|L]` also
contains the literal `'|'`. -/
def matchLineto (l : List Char) : Option (List (List Char)) :=
  matchRuns [true, true] ['l', '|', 'L'] l

/-- The source's `startCurveTo_RE` (`v` form, class `[v|V]`). -/
def matchStartCurveTo (l : List Char) : Option (List (List Char)) :=
  matchRuns [true, true, true, true] ['v', '|', 'V'] l

/-- The source's `endCurveTo_RE` (`y` form, class `[y|Y]`). -/
def matchEndCurveTo (l : List Char) : Option (List (List Char)) :=
  matchRuns [true, true, true, true] ['y', '|', 'Y'] l

/-- The source's `curveto_RE`: six groups, the third of which is
`([-\d\.]*)` (star, may be empty), class `[c|C]`. -/
def matchCurveTo (l : List Char) : Option (List (List Char)) :=
  matchRuns [true, true, false, true, true, true] ['c', '|', 'C'] l

/-- Classification outcome of one line. -/
inductive LineClass where
  | move
  | line
  | startCurve
  | endCurve
  | curve
  | noMatch
deriving DecidableEq

/-- Classify one line exactly in the order the source's `for` loop tries
the regexes: move, line, start-shorthand, end-shorthand, full curve. -/
def classifyLine (l : List Char) : LineClass :=
  if (matchMoveto l).isSome then .move
  else if (matchLineto l).isSome then .line
  else if (matchStartCurveTo l).isSome then .startCurve
  else if (matchEndCurveTo l).isSome then .endCurve
  else if (matchCurveTo l).isSome then .curve
  else .noMatch

/-! ## Contour builder (first phase of `drawAICBOutlines`) -/

/-- Decidable equality on `Except`, used to evaluate the pipeline on
concrete inputs. -/
instance exceptDecEq {ε α : Type} [DecidableEq ε] [DecidableEq α] :
    DecidableEq (Except ε α) := fun a b =>
  match a, b with
  | .ok x, .ok y =>
    if h : x = y then .isTrue (by rw [h]) else .isFalse (by simp [h])
  | .error x, .error y =>
    if h : x = y then .isTrue (by rw [h]) else .isFalse (by simp [h])
  | .ok _, .error _ => .isFalse (by simp)
  | .error _, .ok _ => .isFalse (by simp)

/-- A point; Python float pairs are modelled exactly with `ℚ`. -/
abbrev Pt := ℚ × ℚ

/-- Exceptions the pipeline can raise. -/
inductive PyErr where
  | indexError
  | valueError
  | typeError
deriving DecidableEq

/-- One drawing operation stored in a contour.  `curve`'s first control
point is an `Option` because the source stores the module-level
`previousOnCurve` there, which is `None` until the first token. -/
inductive BOp where
  | move : Pt → BOp
  | line : Pt → BOp
  | curve : Option Pt → Pt → Pt → BOp
deriving DecidableEq

/-- The tag Python sees as `op[0]` (`'move'`, `'line'`, `'curve'`). -/
inductive BTag where
  | move
  | line
  | curve
deriving DecidableEq

/-- Tag of a stored operation. -/
def BOp.tag : BOp → BTag
  | .move _ => .move
  | .line _ => .line
  | .curve _ _ _ => .curve

/-- `float(...)` result, raising `ValueError` on failure. -/
def toFloat (o : Option ℚ) : Except PyErr ℚ :=
  match o with
  | some q => .ok q
  | none => .error .valueError

/-- `contours[-1].append(op)`: appends to the last contour, raising
`IndexError` when the list is empty. -/
def appendLast (cs : List (List BOp)) (op : BOp) : Except PyErr (List (List BOp)) :=
  match cs with
  | [] => .error .indexError
  | [c] => .ok [c ++ [op]]
  | c :: rest =>
    match appendLast rest op with
    | .ok rest' => .ok (c :: rest')
    | .error e => .error e

/-- Builder state: the contour list and `previousOnCurve`. -/
abbrev BState := List (List BOp) × Option Pt

/-- Body of the classification loop of `drawAICBOutlines` for one line,
translated branch by branch from the source. -/
def stepBuild (st : BState) (l : List Char) : Except PyErr BState :=
  match matchMoveto l with
  | some gs =>
    (match gs with
     | [g1, g2] => do
       let x ← toFloat (pyFloat g1)
       let y ← toFloat (pyFloat g2)
       .ok (st.1 ++ [[BOp.move (x, y)]], some (x, y))
     | _ => .ok st)
  | none =>
  match matchLineto l with
  | some gs =>
    (match gs with
     | [g1, g2] => do
       let x ← toFloat (pyFloat g1)
       let y ← toFloat (pyFloat g2)
       let cs ← appendLast st.1 (BOp.line (x, y))
       .ok (cs, some (x, y))
     | _ => .ok st)
  | none =>
  match matchStartCurveTo l with
  | some gs =>
    (match gs with
     | [g1, g2, g3, g4] => do
       let x1 ← toFloat (pyFloat g1)
       let y1 ← toFloat (pyFloat g2)
       let x2 ← toFloat (pyFloat g3)
       let y2 ← toFloat (pyFloat g4)
       let cs ← appendLast st.1 (BOp.curve st.2 (x1, y1) (x2, y2))
       .ok (cs, some (x2, y2))
     | _ => .ok st)
  | none =>
  match matchEndCurveTo l with
  | some gs =>
    (match gs with
     | [g1, g2, g3, g4] => do
       let x1 ← toFloat (pyFloat g1)
       let y1 ← toFloat (pyFloat g2)
       let x2 ← toFloat (pyFloat g3)
       let y2 ← toFloat (pyFloat g4)
       let cs ← appendLast st.1 (BOp.curve (some (x1, y1)) (x2, y2) (x2, y2))
       .ok (cs, some (x2, y2))
     | _ => .ok st)
  | none =>
  match matchCurveTo l with
  | some gs =>
    (match gs with
     | [g1, g2, g3, g4, g5, g6] => do
       let x1 ← toFloat (pyFloat g1)
       let y1 ← toFloat (pyFloat g2)
       let x2 ← toFloat (pyFloat g3)
       let y2 ← toFloat (pyFloat g4)
       let x3 ← toFloat (pyFloat g5)
       let y3 ← toFloat (pyFloat g6)
       let cs ← appendLast st.1 (BOp.curve (some (x1, y1)) (x2, y2) (x3, y3))
       .ok (cs, some (x3, y3))
     | _ => .ok st)
  | none => .ok st

/-! ## Bounding-box resolver -/

/-- Characters of the capture group `([-\d\.\s]*)` of `boundingBox_RE`. -/
def isBBoxChar (c : Char) : Bool :=
  isNumChar c || pyIsSpace c

/-- The literal part of `boundingBox_RE`. -/
def bboxLit : List Char := "%%BoundingBox:".data

/-- Scan for the first regex match of `"%%BoundingBox:\s([-\d\.\s]*)"`
in the document and return its capture group (`findall(...)[0]`). -/
def findBBoxCapture : List Char → Option (List Char)
  | [] => none
  | c :: rest =>
    if bboxLit.isPrefixOf (c :: rest) then
      match (c :: rest).drop bboxLit.length with
      | w :: r2 => if pyIsSpace w then some (r2.takeWhile isBBoxChar) else findBBoxCapture rest
      | [] => findBBoxCapture rest
    else findBBoxCapture rest

/-- The points stored in one operation (`pts` in the source); a curve
contributes both control points and the destination. -/
def opPoints : BOp → List (Option Pt)
  | .move p => [some p]
  | .line p => [some p]
  | .curve cp p2 p3 => [cp, some p2, some p3]

/-- All points of all contours, in order (`points` in the source). -/
def allPoints (cs : List (List BOp)) : List (Option Pt) :=
  (cs.map (fun c => (c.map opPoints).flatten)).flatten

/-- fontTools' `calcBounds`: tight (xMin, yMin, xMax, yMax) of a point
list, `(0, 0, 0, 0)` for the empty list. -/
def calcBounds : List Pt → (ℚ × ℚ × ℚ × ℚ)
  | [] => (0, 0, 0, 0)
  | p :: rest =>
    rest.foldl
      (fun acc q => (min acc.1 q.1, min acc.2.1 q.2, max acc.2.2.1 q.1, max acc.2.2.2 q.2))
      (p.1, p.2, p.1, p.2)

/-- Fallback bounding box computed from the assembled geometry.  A `none`
point (an unresolved `previousOnCurve`) would make fontTools compare
`None` with a float, a `TypeError`; this is unreachable from
`drawAICBOutlines` (every stored curve's first control point is
resolved whenever a contour exists). -/
def computedBounds (cs : List (List BOp)) : Except PyErr (ℚ × ℚ × ℚ × ℚ) :=
  match (allPoints cs).mapM id with
  | none => .error .typeError
  | some pts => .ok (calcBounds pts)

/-- Bounding-box resolution of `drawAICBOutlines`: first declared
directive (each value truncated via `int(i.split('.')[0])`), with
fallback to computed bounds when the declaration is missing or reads
`(0, 0, 0, 0)`.  A capture that does not parse as integers raises
`ValueError`; a parsed list whose length is not 4 raises `ValueError`
when unpacked by the transform. -/
def resolveBoundingBox (doc : List Char) (cs : List (List BOp)) :
    Except PyErr (ℚ × ℚ × ℚ × ℚ) :=
  match findBBoxCapture doc with
  | none => computedBounds cs
  | some cap =>
    match (pySplitSpace cap).mapM (fun t => pyInt (takeBeforeDot t)) with
    | none => .error .valueError
    | some ints =>
      if ints = [0, 0, 0, 0] then computedBounds cs
      else
        match ints with
        | [a, b, c, d] => .ok ((a : ℚ), (b : ℚ), (c : ℚ), (d : ℚ))
        | _ => .error .valueError

/-! ## Rect-fit transform (`_getRectTransform`) -/

/-- A rectangle with independently optional bounds, as the 4-tuples the
source unpacks. -/
structure ORect where
  xMin : Option ℚ
  yMin : Option ℚ
  xMax : Option ℚ
  yMax : Option ℚ
deriving DecidableEq

/-- The all-`None` fit rectangle. -/
def fitNone : ORect := ⟨none, none, none, none⟩

/-- An affine transform tuple `(xx, xy, yx, yy, dx, dy)` as returned by
`_getRectTransform`. -/
structure Transform where
  xx : ℚ
  xy : ℚ
  yx : ℚ
  yy : ℚ
  dx : ℚ
  dy : ℚ
deriving DecidableEq

/-- The `widthScale` computation: defined only when all four x bounds
exist, the source width is nonzero, and (because both branches test
strict inequality) the two widths differ. -/
def widthScaleOf (rect1 rect2 : ORect) : Option ℚ :=
  match rect1.xMin, rect1.xMax, rect2.xMin, rect2.xMax with
  | some xMin1, some xMax1, some xMin2, some xMax2 =>
    let width1 := xMax1 - xMin1
    let width2 := xMax2 - xMin2
    if width2 ≠ 0 then
      if width1 < width2 then some (width1 / width2)
      else if width2 < width1 then some (width1 / width2)
      else none
    else none
  | _, _, _, _ => none

/-- The `heightScale` computation, identical in shape on the y axis. -/
def heightScaleOf (rect1 rect2 : ORect) : Option ℚ :=
  match rect1.yMin, rect1.yMax, rect2.yMin, rect2.yMax with
  | some yMin1, some yMax1, some yMin2, some yMax2 =>
    let height1 := yMax1 - yMin1
    let height2 := yMax2 - yMin2
    if height2 ≠ 0 then
      if height1 < height2 then some (height1 / height2)
      else if height2 < height1 then some (height1 / height2)
      else none
    else none
  | _, _, _, _ => none

/-- The scale chosen by `_getRectTransform`. -/
def scaleOf (rect1 rect2 : ORect) (fixedScale : Option ℚ) : ℚ :=
  match fixedScale with
  | some s => s
  | none =>
    match widthScaleOf rect1 rect2, heightScaleOf rect1 rect2 with
    | none, none => 1
    | some w, none => w
    | none, some h => h
    | some w, some h => min w h

/-- The x offset: edge alignment followed by the centering correction
when the scaled source is wider than the target. -/
def xOffsetOf (rect1 rect2 : ORect) (scale : ℚ) : ℚ :=
  match rect1.xMin, rect1.xMax, rect2.xMin, rect2.xMax with
  | some xMin1, some xMax1, some xMin2, some xMax2 =>
    let sMin := xMin2 * scale
    let sMax := xMax2 * scale
    let o := if sMin < xMin1 then xMin1 - sMin
             else if sMax > xMax1 then xMax1 - sMax
             else 0
    let width1 := xMax1 - xMin1
    let width2 := sMax - sMin
    if width2 > width1 then o + (width1 - width2) / 2 else o
  | _, _, _, _ => 0

/-- The y offset, identical in shape on the y axis. -/
def yOffsetOf (rect1 rect2 : ORect) (scale : ℚ) : ℚ :=
  match rect1.yMin, rect1.yMax, rect2.yMin, rect2.yMax with
  | some yMin1, some yMax1, some yMin2, some yMax2 =>
    let sMin := yMin2 * scale
    let sMax := yMax2 * scale
    let o := if sMin < yMin1 then yMin1 - sMin
             else if sMax > yMax1 then yMax1 - sMax
             else 0
    let height1 := yMax1 - yMin1
    let height2 := sMax - sMin
    if height2 > height1 then o + (height1 - height2) / 2 else o
  | _, _, _, _ => 0

/-- `_getRectTransform(rect1, rect2, fixedScale)`. -/
def getRectTransform (rect1 rect2 : ORect) (fixedScale : Option ℚ) : Transform :=
  let scale := scaleOf rect1 rect2 fixedScale
  ⟨scale, 0, 0, scale, xOffsetOf rect1 rect2 scale, yOffsetOf rect1 rect2 scale⟩

/-- fontTools `Transform.transformPoint` for the tuples produced here. -/
def transformPoint (t : Transform) (p : Pt) : Pt :=
  (t.xx * p.1 + t.yx * p.2 + t.dx, t.xy * p.1 + t.yy * p.2 + t.dy)

/-! ## Outline replayer (second phase of `drawAICBOutlines`) -/

/-- A call received by the consumer pen. -/
inductive PenCall where
  | moveTo : Pt → PenCall
  | lineTo : Pt → PenCall
  | curveTo : Pt → Pt → Pt → PenCall
  | closePath
deriving DecidableEq

/-- The "filter out overlapping points" step: the source drops the last
operation only when it is a `'line'` AND `start[0] == end[0]` — a
comparison of the type tags, not of the bound-but-unused
`startPoints`/`endPoints`. -/
def dedupContour (c : List BOp) : List BOp :=
  if 1 < c.length then
    match c.head?, c.getLast? with
    | some s, some e =>
      if e.tag = BTag.line ∧ s.tag = e.tag then c.dropLast else c
    | _, _ => c
  else c

/-- Replay one stored operation through the transform pen. -/
def opCall (t : Transform) : BOp → Except PyErr PenCall
  | .move p => .ok (.moveTo (transformPoint t p))
  | .line p => .ok (.lineTo (transformPoint t p))
  | .curve cp p2 p3 =>
    match cp with
    | some p1 => .ok (.curveTo (transformPoint t p1) (transformPoint t p2) (transformPoint t p3))
    | none => .error .typeError

/-- Replay one contour: dedup, emit each operation, then one closePath. -/
def replayContour (t : Transform) (c : List BOp) : Except PyErr (List PenCall) :=
  match (dedupContour c).mapM (opCall t) with
  | .error e => .error e
  | .ok calls => .ok (calls ++ [PenCall.closePath])

/-- `drawAICBOutlines(data, pen, fitInside, fixedScale)`: returns the
success boolean and the full sequence of calls issued to the consumer
pen, or the uncaught exception. -/
def drawAICBOutlines (data : List Char) (fitInside : ORect) (fixedScale : Option ℚ) :
    Except PyErr (Bool × List PenCall) :=
  match (pySplitLines data).foldlM stepBuild (([], none) : BState) with
  | .error e => .error e
  | .ok (contours, _) =>
    if contours = [] then .ok (false, [])
    else
      match resolveBoundingBox (joinNL (pySplitLines data)) contours with
      | .error e => .error e
      | .ok (a, b, c, d) =>
        let t := getRectTransform fitInside ⟨some a, some b, some c, some d⟩ fixedScale
        match contours.mapM (replayContour t) with
        | .error e => .error e
        | .ok callss => .ok (true, callss.flatten)

/-! ## Writer (`AICBPen`)

The writer is driven through fontTools' `BasePen`: `moveTo`/`lineTo`
call `_moveTo`/`_lineTo`, a three-point `curveTo` calls `_curveToOne`,
`closePath` calls `_closePath` and `endPath` calls `_endPath`.  The pen
is polymorphic in what the caller passes as points; it only formats them
with `str(...)` and compares them with `!=`.  We instantiate the points
with `ℤ × ℤ` (Python `int` pairs), whose `str` is `toString`. -/

/-- Writer point: a Python `int` pair. -/
abbrev WPt := ℤ × ℤ

/-- Python's `str` of an int. -/
def intStr (i : ℤ) : List Char := (toString i).data

/-- Token `"x y OP"`. -/
def ptTok (p : WPt) (op : Char) : List Char :=
  intStr p.1 ++ ' ' :: intStr p.2 ++ [' ', op]

/-- Token `"x1 y1 x2 y2 x3 y3 c"`. -/
def curveTok (p1 p2 p3 : WPt) : List Char :=
  intStr p1.1 ++ ' ' :: intStr p1.2 ++ ' ' :: intStr p2.1 ++ ' ' :: intStr p2.2 ++
    ' ' :: intStr p3.1 ++ ' ' :: intStr p3.2 ++ [' ', 'c']

/-- The `_epsDict` prolog block (one multi-line element of `_epsData`). -/
def epsDict : List Char :=
  ("/AICBPen 24 dict def AICBPen begin\n/Version 0 def\n/bd \x7bbind def\x7d def\n/n \x7bnewpath\x7d bd\n/c \x7bcurveto\x7d bd\n/C \x7bcurveto\x7d bd\n/L \x7blineto\x7d bd\n/l \x7blineto\x7d bd\n/m \x7bmoveto\x7d bd\n/f \x7bclosepath\x7d bd\n/S \x7b\x7d bd\n/*u \x7b \x7d bd\n/*U \x7b fill\x7d bd\n/A \x7bpop\x7d bd\n/O \x7bpop\x7d bd\n/D \x7bpop\x7d bd\n/g \x7bsetgray\x7d bd\nend").data

/-- The `_epsSetup` block. -/
def epsSetup : List Char :=
  "%%BeginSetup\nAICBPen begin\nn\n%%EndSetup".data

/-- The `_epsTrailer` block. -/
def epsTrailer : List Char :=
  "*U\n%%PageTrailer\nshowpage\n%%Trailer\nend\n%%EOF".data

/-- The state of one `AICBPen` instance. -/
structure AICBPen where
  epsData : List (List Char)
  firstPoint : Option WPt
  currentPoint : Option WPt
deriving DecidableEq

/-- `AICBPen.__init__(glyphSet, boundingBox, creator)`; the creation
timestamp (external clock, out of scope) is passed in as `ts`. -/
def initAICBPen (creator ts : List Char) (boundingBox : List ℤ) : AICBPen :=
  { epsData :=
      [ "%!PS-Adobe-3.0".data,
        "%%Creator: ".data ++ creator,
        "%%Title: ".data ++ creator ++ " Data".data,
        "%%CreationDate: ".data ++ ts,
        "%%BoundingBox: ".data ++ List.intercalate [' '] (boundingBox.map intStr),
        "%%EndComments".data,
        "%%BeginProlog".data,
        epsDict,
        "%%EndProlog".data,
        epsSetup,
        "0 A  *u 0 O 0 g".data ],
    firstPoint := none,
    currentPoint := none }

/-- `_moveTo`: appends the `"0 D"` marker then the move token. -/
def penMoveTo (st : AICBPen) (p : WPt) : AICBPen :=
  { st with
    epsData := st.epsData ++ ["0 D".data, ptTok p 'm'],
    firstPoint := some p,
    currentPoint := some p }

/-- `_lineTo`. -/
def penLineTo (st : AICBPen) (p : WPt) : AICBPen :=
  { st with
    epsData := st.epsData ++ [ptTok p 'l'],
    currentPoint := some p }

/-- `_curveToOne`. -/
def penCurveTo (st : AICBPen) (p1 p2 p3 : WPt) : AICBPen :=
  { st with
    epsData := st.epsData ++ [curveTok p1 p2 p3],
    currentPoint := some p3 }

/-- `_closePath`: when the current point differs from the subpath's first
point, emit a line back to the first point (via `self.lineTo`, which also
updates the current point), then the closure token `"f"`.  Calling it
with `firstPoint == None` but a current point would format `None`, a
`TypeError` (unreachable from `BasePen`-driven use). -/
def penClosePath (st : AICBPen) : Except PyErr AICBPen :=
  if st.firstPoint ≠ st.currentPoint then
    match st.firstPoint with
    | some f => .ok { st with
        epsData := st.epsData ++ [ptTok f 'l', "f".data],
        currentPoint := some f }
    | none => .error .typeError
  else .ok { st with epsData := st.epsData ++ ["f".data] }

/-- `_endPath`: the dialect closes nominally-open paths too. -/
def penEndPath (st : AICBPen) : AICBPen :=
  { st with epsData := st.epsData ++ ["f".data] }

/-- `getData`: join the accumulated lines and the fixed trailer. -/
def getData (st : AICBPen) : List Char :=
  joinNL (st.epsData ++ [epsTrailer])

/-- A drawing call driven into the writer. -/
inductive WOp where
  | moveTo : WPt → WOp
  | lineTo : WPt → WOp
  | curveTo : WPt → WPt → WPt → WOp
  | closePath
  | endPath
deriving DecidableEq

/-- Drive a sequence of drawing calls into the pen. -/
def runPen (ops : List WOp) (st : AICBPen) : Except PyErr AICBPen :=
  ops.foldlM (fun st op =>
    match op with
    | .moveTo p => .ok (penMoveTo st p)
    | .lineTo p => .ok (penLineTo st p)
    | .curveTo p1 p2 p3 => .ok (penCurveTo st p1 p2 p3)
    | .closePath => penClosePath st
    | .endPath => .ok (penEndPath st)) st

/-! ## Specification-side definitions

These definitions follow the wording of the specification (not the
source); the theorems below compare them with the embedded code. -/

/-- Nondeterministic decomposition semantics of the token regexes
`^(G₁)\s(G₂)\s…\s[OPS]$`: the line splits into operand runs over
`[-\d\.]` (nonempty where the group is `+`), each followed by one
whitespace character, ending in one operator character. -/
def shapedFrom : List Bool → List Char → List Char → Prop
  | [], ops, l => ∃ c, l = [c] ∧ c ∈ ops
  | g :: rest, ops, l =>
    ∃ r c t, l = r ++ c :: t ∧ (∀ x ∈ r, isNumChar x = true) ∧
      (g = true → r ≠ []) ∧ pyIsSpace c = true ∧ shapedFrom rest ops t

/-- An optionally-signed decimal numeral (integer or fractional, no
exponent), as the spec describes operands. -/
def isDecNumeral (s : List Char) : Bool :=
  let t : List Char := match s with
    | '-' :: t => t
    | t => t
  let ip := t.takeWhile Char.isDigit
  match t.dropWhile Char.isDigit with
  | [] => !ip.isEmpty
  | '.' :: fp => !ip.isEmpty && !fp.isEmpty && fp.all Char.isDigit
  | _ => false

/-- The claim's shape for a line token: two optionally-signed decimal
numbers followed by the trailing operator `l` or `L`. -/
def claimLineShaped (s : List Char) : Prop :=
  ∃ n1 n2 : List Char, isDecNumeral n1 = true ∧ isDecNumeral n2 = true ∧
    ∃ op, (op = 'l' ∨ op = 'L') ∧ s = n1 ++ ' ' :: n2 ++ [' ', op]

/-- Truncation toward zero of a rational. -/
def truncQ (q : ℚ) : ℤ :=
  if 0 ≤ q then ⌊q⌋ else -⌊-q⌋

/-- Value of the fractional digits of a decimal numeral. -/
def fracVal (fp : List Char) : ℚ :=
  (natOfDigits fp : ℚ) / (10 : ℚ) ^ fp.length

/-- Value denoted by a decimal numeral with sign `sg`, integer digits
`ip` and fractional digits `fp`. -/
def decTokVal (sg : Bool) (ip fp : List Char) : ℚ :=
  (if sg then -1 else 1) * ((natOfDigits ip : ℚ) + fracVal fp)

/-- The text of a decimal numeral token. -/
def mkNumTok (sg : Bool) (ip : List Char) (fpo : Option (List Char)) : List Char :=
  (if sg then ['-'] else []) ++ ip ++ (match fpo with | some fp => '.' :: fp | none => [])

/-- `DecTok t v`: the token `t` is a well-formed decimal numeral (with a
nonempty integer part) denoting the value `v`. -/
def DecTok (t : List Char) (v : ℚ) : Prop :=
  ∃ sg ip fpo, t = mkNumTok sg ip fpo ∧ ip ≠ [] ∧ ip.all Char.isDigit = true ∧
    (match fpo with | some fp => fp.all Char.isDigit = true | none => True) ∧
    v = decTokVal sg ip (match fpo with | some fp => fp | none => [])

/-- Per-axis scale as amended: defined exactly when all four bounds on
the axis exist, the source extent is nonzero and the two extents
differ; then it is the target/source extent ratio. -/
def axisScaleSpec (tMin tMax sMin sMax : Option ℚ) : Option ℚ :=
  match tMin, tMax, sMin, sMax with
  | some a, some b, some c, some d =>
    if d - c ≠ 0 ∧ b - a ≠ d - c then some ((b - a) / (d - c)) else none
  | _, _, _, _ => none

/-- Final scale as amended: minimum of the defined per-axis scales, the
defined one if only one, `1` if neither. -/
def amendedScaleSpec (rect1 rect2 : ORect) : ℚ :=
  match axisScaleSpec rect1.xMin rect1.xMax rect2.xMin rect2.xMax,
        axisScaleSpec rect1.yMin rect1.yMax rect2.yMin rect2.yMax with
  | none, none => 1
  | some w, none => w
  | none, some h => h
  | some w, some h => min w h

/-- One step of fontTools' `calcBounds` fold (named to state lemmas
about the fold in `calcBounds`). -/
def boundsStep (acc : ℚ × ℚ × ℚ × ℚ) (q : Pt) : ℚ × ℚ × ℚ × ℚ :=
  (min acc.1 q.1, min acc.2.1 q.2, max acc.2.2.1 q.1, max acc.2.2.2 q.2)

/-- Boolean check that every operand group a matcher extracted parses as
a Python float. -/
def floatsOkB (m : Option (List (List Char))) : Bool :=
  match m with
  | none => true
  | some gs => gs.all (fun g => (pyFloat g).isSome)

/-! ## Claim theorems -/

/-- The overlap filter never fires on a contour whose first operation is
a Move: the tag comparison `start[0] == end[0]` would need the first
operation to be a `'line'` too. -/
theorem dedupContour_move_head (c : List BOp) (p : Pt)
    (hc : c.head? = some (BOp.move p)) : dedupContour c = c := by
  unfold dedupContour
  cases h1 : decide (1 < c.length) with
  | false => simp [of_decide_eq_false h1]
  | true =>
    simp only [of_decide_eq_true h1, if_pos]
    rw [hc]
    cases hl : c.getLast? with
    | none => rfl
    | some e =>
      have : ¬ (e.tag = BTag.line ∧ (BOp.move p).tag = e.tag) := by
        rintro ⟨h2, h3⟩
        rw [h2] at h3
        exact absurd h3 (by simp [BOp.tag])
      simp [this]

/-- Bind of a success in the `Except` monad. -/
theorem exceptBind_ok {α β : Type} (a : α) (f : α → Except PyErr β) :
    ((Except.ok a : Except PyErr α) >>= f) = f a := rfl

/-- Bind of a failure in the `Except` monad. -/
theorem exceptBind_error {α β : Type} (e : PyErr) (f : α → Except PyErr β) :
    ((Except.error e : Except PyErr α) >>= f) = .error e := rfl

/-- `contours[-1].append` preserves "every contour starts with a Move". -/
theorem appendLast_heads (op : BOp) :
    ∀ (cs cs' : List (List BOp)), appendLast cs op = .ok cs' →
    (∀ c ∈ cs, ∃ p r, c = BOp.move p :: r) →
    ∀ c ∈ cs', ∃ p r, c = BOp.move p :: r := by
  intro cs
  induction cs with
  | nil =>
    intro cs' h
    exact absurd h (by simp [appendLast])
  | cons c0 rest ih =>
    intro cs' h hheads
    cases rest with
    | nil =>
      simp only [appendLast, Except.ok.injEq] at h
      subst h
      intro c hc
      simp only [List.mem_singleton] at hc
      obtain ⟨p, r, hc0⟩ := hheads c0 (by simp)
      exact ⟨p, r ++ [op], by simp [hc, hc0]⟩
    | cons c1 rest2 =>
      simp only [appendLast] at h
      cases hrec : appendLast (c1 :: rest2) op with
      | error e =>
        rw [hrec] at h
        exact absurd h (by simp)
      | ok rest' =>
        rw [hrec] at h
        simp only [Except.ok.injEq] at h
        subst h
        intro c hc
        rcases List.mem_cons.1 hc with rfl | hc
        · exact hheads c (by simp)
        · exact ih rest' hrec (fun d hd => hheads d (by simp [hd])) c hc

/-- One builder step preserves "every contour starts with a Move". -/
theorem stepBuild_heads (st : BState) (l : List Char) (st' : BState)
    (h : stepBuild st l = .ok st')
    (hh : ∀ c ∈ st.1, ∃ p r, c = BOp.move p :: r) :
    ∀ c ∈ st'.1, ∃ p r, c = BOp.move p :: r := by
  unfold stepBuild at h
  split at h
  · split at h
    · rename_i g1 g2 hm
      cases hx : pyFloat g1 with
      | none =>
        rw [hx] at h
        exact absurd h (by simp [toFloat, exceptBind_ok, exceptBind_error])
      | some x =>
        rw [hx] at h
        cases hy : pyFloat g2 with
        | none =>
          rw [hy] at h
          exact absurd h (by simp [toFloat, exceptBind_ok, exceptBind_error])
        | some y =>
          rw [hy] at h
          simp only [toFloat, exceptBind_ok, Except.ok.injEq] at h
          subst h
          intro c hc
          rcases List.mem_append.1 hc with hc | hc
          · exact hh c hc
          · simp only [List.mem_singleton] at hc
            exact ⟨(x, y), [], hc⟩
    · simp only [Except.ok.injEq] at h
      subst h
      exact hh
  · split at h
    · split at h
      · rename_i g1 g2 hm
        cases hx : pyFloat g1 with
        | none =>
          rw [hx] at h
          exact absurd h (by simp [toFloat, exceptBind_ok, exceptBind_error])
        | some x =>
          rw [hx] at h
          cases hy : pyFloat g2 with
          | none =>
            rw [hy] at h
            exact absurd h (by simp [toFloat, exceptBind_ok, exceptBind_error])
          | some y =>
            rw [hy] at h
            simp only [toFloat, exceptBind_ok] at h
            cases hap : appendLast st.1 (BOp.line (x, y)) with
            | error e =>
              rw [hap] at h
              exact absurd h (by simp [exceptBind_error])
            | ok cs' =>
              rw [hap] at h
              simp only [exceptBind_ok, Except.ok.injEq] at h
              subst h
              exact appendLast_heads _ _ _ hap hh
      · simp only [Except.ok.injEq] at h
        subst h
        exact hh
    · split at h
      · split at h
        · rename_i g1 g2 g3 g4 hm
          cases hx1 : pyFloat g1 with
          | none =>
            rw [hx1] at h
            exact absurd h (by simp [toFloat, exceptBind_ok, exceptBind_error])
          | some x1 =>
            rw [hx1] at h
            cases hy1 : pyFloat g2 with
            | none =>
              rw [hy1] at h
              exact absurd h (by simp [toFloat, exceptBind_ok, exceptBind_error])
            | some y1 =>
              rw [hy1] at h
              cases hx2 : pyFloat g3 with
              | none =>
                rw [hx2] at h
                exact absurd h (by simp [toFloat, exceptBind_ok, exceptBind_error])
              | some x2 =>
                rw [hx2] at h
                cases hy2 : pyFloat g4 with
                | none =>
                  rw [hy2] at h
                  exact absurd h (by simp [toFloat, exceptBind_ok, exceptBind_error])
                | some y2 =>
                  rw [hy2] at h
                  simp only [toFloat, exceptBind_ok] at h
                  cases hap : appendLast st.1 (BOp.curve st.2 (x1, y1) (x2, y2)) with
                  | error e =>
                    rw [hap] at h
                    exact absurd h (by simp [exceptBind_error])
                  | ok cs' =>
                    rw [hap] at h
                    simp only [exceptBind_ok, Except.ok.injEq] at h
                    subst h
                    exact appendLast_heads _ _ _ hap hh
        · simp only [Except.ok.injEq] at h
          subst h
          exact hh
      · split at h
        · split at h
          · rename_i g1 g2 g3 g4 hm
            cases hx1 : pyFloat g1 with
            | none =>
              rw [hx1] at h
              exact absurd h (by simp [toFloat, exceptBind_ok, exceptBind_error])
            | some x1 =>
              rw [hx1] at h
              cases hy1 : pyFloat g2 with
              | none =>
                rw [hy1] at h
                exact absurd h (by simp [toFloat, exceptBind_ok, exceptBind_error])
              | some y1 =>
                rw [hy1] at h
                cases hx2 : pyFloat g3 with
                | none =>
                  rw [hx2] at h
                  exact absurd h (by simp [toFloat, exceptBind_ok, exceptBind_error])
                | some x2 =>
                  rw [hx2] at h
                  cases hy2 : pyFloat g4 with
                  | none =>
                    rw [hy2] at h
                    exact absurd h (by simp [toFloat, exceptBind_ok, exceptBind_error])
                  | some y2 =>
                    rw [hy2] at h
                    simp only [toFloat, exceptBind_ok] at h
                    cases hap : appendLast st.1 (BOp.curve (some (x1, y1)) (x2, y2) (x2, y2)) with
                    | error e =>
                      rw [hap] at h
                      exact absurd h (by simp [exceptBind_error])
                    | ok cs' =>
                      rw [hap] at h
                      simp only [exceptBind_ok, Except.ok.injEq] at h
                      subst h
                      exact appendLast_heads _ _ _ hap hh
          · simp only [Except.ok.injEq] at h
            subst h
            exact hh
        · split at h
          · split at h
            · rename_i g1 g2 g3 g4 g5 g6 hm
              cases hx1 : pyFloat g1 with
              | none =>
                rw [hx1] at h
                exact absurd h (by simp [toFloat, exceptBind_ok, exceptBind_error])
              | some x1 =>
                rw [hx1] at h
                cases hy1 : pyFloat g2 with
                | none =>
                  rw [hy1] at h
                  exact absurd h (by simp [toFloat, exceptBind_ok, exceptBind_error])
                | some y1 =>
                  rw [hy1] at h
                  cases hx2 : pyFloat g3 with
                  | none =>
                    rw [hx2] at h
                    exact absurd h (by simp [toFloat, exceptBind_ok, exceptBind_error])
                  | some x2 =>
                    rw [hx2] at h
                    cases hy2 : pyFloat g4 with
                    | none =>
                      rw [hy2] at h
                      exact absurd h (by simp [toFloat, exceptBind_ok, exceptBind_error])
                    | some y2 =>
                      rw [hy2] at h
                      cases hx3 : pyFloat g5 with
                      | none =>
                        rw [hx3] at h
                        exact absurd h (by simp [toFloat, exceptBind_ok, exceptBind_error])
                      | some x3 =>
                        rw [hx3] at h
                        cases hy3 : pyFloat g6 with
                        | none =>
                          rw [hy3] at h
                          exact absurd h (by simp [toFloat, exceptBind_ok, exceptBind_error])
                        | some y3 =>
                          rw [hy3] at h
                          simp only [toFloat, exceptBind_ok] at h
                          cases hap : appendLast st.1
                              (BOp.curve (some (x1, y1)) (x2, y2) (x3, y3)) with
                          | error e =>
                            rw [hap] at h
                            exact absurd h (by simp [exceptBind_error])
                          | ok cs' =>
                            rw [hap] at h
                            simp only [exceptBind_ok, Except.ok.injEq] at h
                            subst h
                            exact appendLast_heads _ _ _ hap hh
            · simp only [Except.ok.injEq] at h
              subst h
              exact hh
          · simp only [Except.ok.injEq] at h
            subst h
            exact hh

/-- The whole builder loop preserves "every contour starts with a Move". -/
theorem foldlM_stepBuild_heads (lines : List (List Char)) :
    ∀ (st st' : BState), lines.foldlM stepBuild st = .ok st' →
    (∀ c ∈ st.1, ∃ p r, c = BOp.move p :: r) →
    ∀ c ∈ st'.1, ∃ p r, c = BOp.move p :: r := by
  induction lines with
  | nil =>
    intro st st' h hh
    simp only [List.foldlM_nil] at h
    cases h
    exact hh
  | cons l ls ih =>
    intro st st' h hh
    rw [List.foldlM_cons] at h
    cases hs : stepBuild st l with
    | error e =>
      rw [hs] at h
      exact absurd h (by simp [exceptBind_error])
    | ok st1 =>
      rw [hs] at h
      rw [exceptBind_ok] at h
      exact ih st1 st' h (stepBuild_heads st l st1 hs hh)

/-- C1 — the spec says a trailing Line whose destination equals the
contour's Move point is dropped before replay.  The code's filter
compares the tags `start[0] == end[0]` instead of the bound-but-unused
`startPoints`/`endPoints`, so it never fires on a contour that starts
with a Move: on `"0 0 m / 10 0 l / 0 0 l"` the consumer receives the
redundant `lineTo (0,0)` immediately followed by `closePath`.  The
second conjunct shows the filter is dead code for every contour whose
first operation is a Move, and the third that every contour the builder
can ever produce starts with a Move, so the filter is dead code for the
whole pipeline. -/
theorem c1_trailing_line_not_dropped :
    drawAICBOutlines "0 0 m\n10 0 l\n0 0 l".data fitNone none =
      .ok (true, [.moveTo (0, 0), .lineTo (10, 0), .lineTo (0, 0), .closePath]) ∧
    (∀ (c : List BOp) (p : Pt), c.head? = some (BOp.move p) → dedupContour c = c) ∧
    (∀ (data : List Char) (st : BState),
       (pySplitLines data).foldlM stepBuild (([], none) : BState) = .ok st →
       ∀ c ∈ st.1, dedupContour c = c) := by
  refine ⟨by decide!, dedupContour_move_head, ?_⟩
  intro data st h c hc
  obtain ⟨p, r, hcr⟩ :=
    foldlM_stepBuild_heads (pySplitLines data) ([], none) st h (by simp) c hc
  exact dedupContour_move_head c p (by simp [hcr])

/-- C2 — the claim (and the source's own docstring and comment) says an
oversized scaled source is centered on the target, predicting offsets
`-5` for target `(0,0,10,10)`, source `(0,0,20,20)`, fixed scale `1`.
The code first aligns the high edge (offset `-10`) and then adds the
centering correction `-5` on top, producing `-15`, not the centered
`-5`: the scaled source `[0,20]` is moved to `[-15,5]`, not `[-5,15]`. -/
theorem c2_centering_eval :
    getRectTransform ⟨some 0, some 0, some 10, some 10⟩
        ⟨some 0, some 0, some 20, some 20⟩ (some 1) =
      ⟨1, 0, 0, 1, -15, -15⟩ ∧ (-15 : ℚ) ≠ -5 := by
  constructor
  · decide!
  · norm_num

/-- C3 counterexample — the claim says the per-axis scale formula
applies also when the target and source extents are equal.  For target
`(0,0,10,20)` and source `(0,0,10,10)` the x extents are equal (ratio
`1`), the y ratio is `2`; the claim predicts `min 1 2 = 1`, but the code
leaves `widthScale` undefined on the equal axis and returns scale `2`. -/
theorem c3_equal_extent_cex :
    getRectTransform ⟨some 0, some 0, some 10, some 20⟩
        ⟨some 0, some 0, some 10, some 10⟩ none =
      ⟨2, 0, 0, 2, -15, 0⟩ ∧
    (2 : ℚ) ≠ min ((10 - 0) / (10 - 0)) ((20 - 0) / (10 - 0)) := by
  constructor
  · decide!
  · norm_num

/-- C4 counterexample — the claim says bounding-box resolution never
raises and malformed declarations fall back to the computed box.  On
`"5 5 m\n%%BoundingBox: x"` the capture group is empty, `int('')`
raises, and `drawAICBOutlines` propagates an uncaught `ValueError`
instead of using the fallback box. -/
theorem c4_malformed_bbox_raises_cex :
    drawAICBOutlines "5 5 m\n%%BoundingBox: x".data fitNone none =
      .error .valueError := by
  decide!

/-- C5 counterexample — the claim says a line classifies as a line token
exactly when it is two optionally-signed decimals followed by `l` or
`L`.  The character class `[l|L]` in `lineto_RE` also contains the
literal `'|'`, so `"0 0 |"` classifies as a line token although its
trailing operator is neither `l` nor `L`. -/
theorem c5_pipe_operator_cex :
    classifyLine "0 0 |".data = .line ∧ ¬ claimLineShaped "0 0 |".data := by
  refine ⟨by decide, ?_⟩
  rintro ⟨n1, n2, -, -, op, hop, heq⟩
  have h1 : (("0 0 |".data : List Char)).getLast? = some '|' := by decide
  have h2 : (n1 ++ ' ' :: n2 ++ [' ', op]).getLast? = some op := by
    have : n1 ++ ' ' :: n2 ++ [' ', op] = ((n1 ++ ' ' :: n2) ++ [' ']) ++ [op] := by
      simp
    rw [this, List.getLast?_concat]
  rw [heq, h2] at h1
  rcases hop with h | h <;> simp_all

/-- C6 — the claim says writer-emit followed by reader-parse with the
identity fit reproduces the same Move/Line/Curve sequence.  Driving
`moveTo (0,0), lineTo (10,0), lineTo (10,10), closePath` into `AICBPen`
makes `_closePath` synthesize the closing `"0 0 l"` token; the reader's
broken overlap filter (see C1) does not remove it, so the replayed
sequence contains an extra `lineTo (0,0)` the original never issued. -/
theorem c6_roundtrip_extra_line :
    (runPen [WOp.moveTo (0, 0), WOp.lineTo (10, 0), WOp.lineTo (10, 10), WOp.closePath]
        (initAICBPen "AICBPen".data "Sunday October 12:00:00 2026".data
          [0, 0, 100, 100])).map
      (fun st => drawAICBOutlines (getData st) fitNone none) =
    .ok (.ok (true,
      [.moveTo (0, 0), .lineTo (10, 0), .lineTo (10, 10), .lineTo (0, 0), .closePath])) := by
  decide!

/-- C10 counterexample — the claim says every input whose first
classified path token is a line/shorthand/curve token raises
`IndexError` from the append to the empty contour list.  On `"-- 0 l"`
the line classifies as a line token, but `float('--')` raises first, so
the uncaught exception is a `ValueError`, not an `IndexError`. -/
theorem c10_valueerror_first_cex :
    classifyLine "-- 0 l".data = .line ∧
    drawAICBOutlines "-- 0 l".data fitNone none = .error .valueError ∧
    PyErr.valueError ≠ PyErr.indexError := by
  refine ⟨by decide, by decide!, by decide⟩

/-- The width-scale branch equals the amended per-axis formula. -/
theorem widthScaleOf_eq_spec (rect1 rect2 : ORect) :
    widthScaleOf rect1 rect2 = axisScaleSpec rect1.xMin rect1.xMax rect2.xMin rect2.xMax := by
  rcases rect1 with ⟨a, e1, b, e2⟩
  rcases rect2 with ⟨c, e3, d, e4⟩
  unfold widthScaleOf axisScaleSpec
  rcases a with _ | a <;> rcases b with _ | b <;> rcases c with _ | c <;>
    rcases d with _ | d <;> simp
  by_cases h2 : d - c = 0
  · simp [h2]
  · by_cases h1 : b - a = d - c
    · simp [h2, h1]
    · rcases lt_or_gt_of_ne h1 with h | h
      · simp [h2, h1, h]
      · simp [h2, h1, h, not_lt_of_gt h, le_of_lt h]
/-- The height-scale branch equals the amended per-axis formula. -/
theorem heightScaleOf_eq_spec (rect1 rect2 : ORect) :
    heightScaleOf rect1 rect2 = axisScaleSpec rect1.yMin rect1.yMax rect2.yMin rect2.yMax := by
  rcases rect1 with ⟨e1, a, e2, b⟩
  rcases rect2 with ⟨e3, c, e4, d⟩
  unfold heightScaleOf axisScaleSpec
  rcases a with _ | a <;> rcases b with _ | b <;> rcases c with _ | c <;>
    rcases d with _ | d <;> simp
  by_cases h2 : d - c = 0
  · simp [h2]
  · by_cases h1 : b - a = d - c
    · simp [h2, h1]
    · rcases lt_or_gt_of_ne h1 with h | h
      · simp [h2, h1, h]
      · simp [h2, h1, h, not_lt_of_gt h, le_of_lt h]

/-- C3 amended — without a fixed scale, the per-axis scale is defined
exactly when the axis bounds all exist, the source extent is nonzero
and the two extents strictly differ (an equal-extent axis contributes
no constraint); it then equals the extent ratio, and the final scale is
the min of the defined per-axis scales (the defined one if only one,
`1` if neither).  Stated as: the code's scale equals the amended
specification on every input. -/
theorem c3_scale_amended (rect1 rect2 : ORect) :
    scaleOf rect1 rect2 none = amendedScaleSpec rect1 rect2 ∧
    (getRectTransform rect1 rect2 none).xx = amendedScaleSpec rect1 rect2 ∧
    (getRectTransform rect1 rect2 none).yy = amendedScaleSpec rect1 rect2 := by
  have h : scaleOf rect1 rect2 none = amendedScaleSpec rect1 rect2 := by
    unfold scaleOf amendedScaleSpec
    rw [widthScaleOf_eq_spec, heightScaleOf_eq_spec]
  exact ⟨h, by simpa [getRectTransform] using h, by simpa [getRectTransform] using h⟩

/-- C9 — `_closePath` appends a line token back to the subpath's first
point (updating the current point) exactly when the current point
differs from the first point, then appends `"f"`; when they agree it
appends just `"f"`; `_endPath` also appends just `"f"`. -/
theorem c9_pen_close (st : AICBPen) (f c : WPt)
    (hf : st.firstPoint = some f) (hc : st.currentPoint = some c) :
    (f ≠ c → penClosePath st =
      .ok { st with epsData := st.epsData ++ [ptTok f 'l', "f".data],
                    currentPoint := some f }) ∧
    (f = c → penClosePath st = .ok { st with epsData := st.epsData ++ ["f".data] }) ∧
    penEndPath st = { st with epsData := st.epsData ++ ["f".data] } := by
  unfold penClosePath penEndPath
  rw [hf, hc]
  refine ⟨fun hne => ?_, fun heq => ?_, rfl⟩
  · rw [if_pos (by simpa using hne)]
  · rw [if_neg (by simp [heq])]

/-- Witness for C9 at concrete pen states: closing with current `(9,9)`
and first `(0,0)` emits the synthesized `"0 0 l"` then `"f"`; closing
with current = first emits just `"f"`. -/
theorem c9_pen_close_witness :
    penClosePath ⟨[], some (0, 0), some (9, 9)⟩ =
      .ok ⟨[ptTok (0, 0) 'l', "f".data], some (0, 0), some (0, 0)⟩ ∧
    penClosePath ⟨[], some (3, 3), some (3, 3)⟩ =
      .ok ⟨["f".data], some (3, 3), some (3, 3)⟩ := by
  have h1 := (c9_pen_close ⟨[], some (0, 0), some (9, 9)⟩ (0, 0) (9, 9) rfl rfl).1 (by decide)
  have h2 := (c9_pen_close ⟨[], some (3, 3), some (3, 3)⟩ (3, 3) (3, 3) rfl rfl).2.1 rfl
  exact ⟨by simpa using h1, by simpa using h2⟩

/-! ## Lemmas about classification outcomes and the builder loop -/

/-- A line is a no-match exactly when none of the five token regexes
matches it. -/
theorem classify_noMatch_iff (l : List Char) :
    classifyLine l = .noMatch ↔
      matchMoveto l = none ∧ matchLineto l = none ∧ matchStartCurveTo l = none ∧
      matchEndCurveTo l = none ∧ matchCurveTo l = none := by
  unfold classifyLine
  split_ifs with h1 h2 h3 h4 h5 <;>
    simp_all [Option.isSome_iff_ne_none]

/-- An unmatched line leaves the builder state unchanged. -/
theorem stepBuild_noMatch (st : BState) (l : List Char)
    (h : classifyLine l = .noMatch) : stepBuild st l = .ok st := by
  obtain ⟨h1, h2, h3, h4, h5⟩ := (classify_noMatch_iff l).1 h
  unfold stepBuild
  rw [h1, h2, h3, h4, h5]

/-- Folding the builder over unmatched lines leaves the state unchanged. -/
theorem foldlM_stepBuild_noMatch (lines : List (List Char)) (st : BState)
    (h : ∀ l ∈ lines, classifyLine l = .noMatch) :
    lines.foldlM stepBuild st = .ok st := by
  induction lines generalizing st with
  | nil => rfl
  | cons l ls ih =>
    rw [List.foldlM_cons, stepBuild_noMatch st l (h l (by simp))]
    exact ih st (fun p hp => h p (by simp [hp]))

/-- C7 — when no line of the document classifies as a path token,
`drawAICBOutlines` returns `False` and issues no call at all on the
consumer pen. -/
theorem c7_empty_returns_false (data : List Char) (fit : ORect) (fs : Option ℚ)
    (h : ∀ l ∈ pySplitLines data, classifyLine l = .noMatch) :
    drawAICBOutlines data fit fs = .ok (false, []) := by
  unfold drawAICBOutlines
  rw [foldlM_stepBuild_noMatch _ _ h]
  rfl

/-- Witness for C7: a document of comments and layer markers only. -/
theorem c7_empty_returns_false_witness :
    drawAICBOutlines "%!PS-Adobe-3.0\n%AI5_BeginLayer\n0 A  *u 0 O 0 g\nn\n%AI5_EndLayer--".data
      fitNone none = .ok (false, []) :=
  c7_empty_returns_false _ _ _ (by decide)

/-- C4 amended (positive residue) — classification never raises: an
unmatched line is skipped with no state change, and a missing
bounding-box declaration yields the computed fallback box without
error.  (The counterexample shows a malformed declaration raises
`ValueError` instead.) -/
theorem c4_skip_and_fallback_amended :
    (∀ (st : BState) (l : List Char), classifyLine l = .noMatch → stepBuild st l = .ok st) ∧
    (∀ (doc : List Char) (cs : List (List BOp)),
      findBBoxCapture doc = none → resolveBoundingBox doc cs = computedBounds cs) := by
  refine ⟨stepBuild_noMatch, fun doc cs h => ?_⟩
  unfold resolveBoundingBox
  rw [h]

/-- Witness for C4's amended statement at a concrete marker line and a
concrete declaration-free document. -/
theorem c4_skip_and_fallback_witness :
    stepBuild ([], none) "%AI5_BeginLayer".data = .ok ([], none) ∧
    resolveBoundingBox "no declaration here".data [[BOp.move (1, 2)]] =
      computedBounds [[BOp.move (1, 2)]] :=
  ⟨c4_skip_and_fallback_amended.1 _ _ (by decide),
   c4_skip_and_fallback_amended.2 _ _ (by decide)⟩

/-- A matched group list has exactly one group per regex group. -/
theorem matchRuns_length (gs : List Bool) (ops : List Char) (l : List Char)
    (out : List (List Char)) (h : matchRuns gs ops l = some out) :
    out.length = gs.length := by
  induction gs generalizing l out with
  | nil =>
    unfold matchRuns at h
    split at h
    · split at h
      · simp only [Option.some.injEq] at h
        simp [← h]
      · exact absurd h (by simp)
    · exact absurd h (by simp)
  | cons g rest ih =>
    rw [matchRuns] at h
    split at h
    · exact absurd h (by simp)
    · split at h
      · rename_i c tail heq
        split at h
        · cases hrec : matchRuns rest ops tail with
          | none => rw [hrec] at h; exact absurd h (by simp)
          | some out' =>
            rw [hrec] at h
            simp only [Option.map_some', Option.some.injEq] at h
            simp [← h, ih tail out' hrec]
        · exact absurd h (by simp)
      · exact absurd h (by simp)

/-- A line classified as a line token: the move regex failed and the
line regex produced a two-group match. -/
theorem classify_line_elim (l : List Char) (h : classifyLine l = .line) :
    matchMoveto l = none ∧ ∃ g1 g2, matchLineto l = some [g1, g2] := by
  unfold classifyLine at h
  split_ifs at h with h1 h2
  refine ⟨by simpa [Option.isSome_iff_ne_none, not_not] using h1, ?_⟩
  obtain ⟨gs, hgs⟩ := Option.isSome_iff_exists.1 h2
  have hlen := matchRuns_length _ _ _ _ hgs
  rcases gs with _ | ⟨g1, _ | ⟨g2, _ | _⟩⟩ <;> simp at hlen
  exact ⟨g1, g2, hgs⟩

/-- A line classified as a start-shorthand token: the earlier regexes
failed and the `v` regex produced a four-group match. -/
theorem classify_startCurve_elim (l : List Char) (h : classifyLine l = .startCurve) :
    matchMoveto l = none ∧ matchLineto l = none ∧
    ∃ g1 g2 g3 g4, matchStartCurveTo l = some [g1, g2, g3, g4] := by
  unfold classifyLine at h
  split_ifs at h with h1 h2 h3
  refine ⟨by simpa [Option.isSome_iff_ne_none, not_not] using h1,
          by simpa [Option.isSome_iff_ne_none, not_not] using h2, ?_⟩
  obtain ⟨gs, hgs⟩ := Option.isSome_iff_exists.1 h3
  have hlen := matchRuns_length _ _ _ _ hgs
  rcases gs with _ | ⟨g1, _ | ⟨g2, _ | ⟨g3, _ | ⟨g4, _ | _⟩⟩⟩⟩ <;> simp at hlen
  exact ⟨g1, g2, g3, g4, hgs⟩

/-- A line classified as an end-shorthand token. -/
theorem classify_endCurve_elim (l : List Char) (h : classifyLine l = .endCurve) :
    matchMoveto l = none ∧ matchLineto l = none ∧ matchStartCurveTo l = none ∧
    ∃ g1 g2 g3 g4, matchEndCurveTo l = some [g1, g2, g3, g4] := by
  unfold classifyLine at h
  split_ifs at h with h1 h2 h3 h4
  refine ⟨by simpa [Option.isSome_iff_ne_none, not_not] using h1,
          by simpa [Option.isSome_iff_ne_none, not_not] using h2,
          by simpa [Option.isSome_iff_ne_none, not_not] using h3, ?_⟩
  obtain ⟨gs, hgs⟩ := Option.isSome_iff_exists.1 h4
  have hlen := matchRuns_length _ _ _ _ hgs
  rcases gs with _ | ⟨g1, _ | ⟨g2, _ | ⟨g3, _ | ⟨g4, _ | _⟩⟩⟩⟩ <;> simp at hlen
  exact ⟨g1, g2, g3, g4, hgs⟩

/-- A line classified as a full-curve token. -/
theorem classify_curve_elim (l : List Char) (h : classifyLine l = .curve) :
    matchMoveto l = none ∧ matchLineto l = none ∧ matchStartCurveTo l = none ∧
    matchEndCurveTo l = none ∧
    ∃ g1 g2 g3 g4 g5 g6, matchCurveTo l = some [g1, g2, g3, g4, g5, g6] := by
  unfold classifyLine at h
  split_ifs at h with h1 h2 h3 h4 h5
  refine ⟨by simpa [Option.isSome_iff_ne_none, not_not] using h1,
          by simpa [Option.isSome_iff_ne_none, not_not] using h2,
          by simpa [Option.isSome_iff_ne_none, not_not] using h3,
          by simpa [Option.isSome_iff_ne_none, not_not] using h4, ?_⟩
  obtain ⟨gs, hgs⟩ := Option.isSome_iff_exists.1 h5
  have hlen := matchRuns_length _ _ _ _ hgs
  rcases gs with _ | ⟨g1, _ | ⟨g2, _ | ⟨g3, _ | ⟨g4, _ | ⟨g5, _ | ⟨g6, _ | _⟩⟩⟩⟩⟩⟩ <;>
    simp at hlen
  exact ⟨g1, g2, g3, g4, g5, g6, hgs⟩

/-- On the empty contour list, a line/shorthand/curve token whose
operands all parse as floats reaches `contours[-1]` and raises
`IndexError`. -/
theorem stepBuild_token_on_empty (l : List Char)
    (hcls : classifyLine l = .line ∨ classifyLine l = .startCurve ∨
      classifyLine l = .endCurve ∨ classifyLine l = .curve)
    (hfl : floatsOkB (matchLineto l) = true ∧ floatsOkB (matchStartCurveTo l) = true ∧
      floatsOkB (matchEndCurveTo l) = true ∧ floatsOkB (matchCurveTo l) = true) :
    stepBuild ([], none) l = .error .indexError := by
  obtain ⟨hfL, hfV, hfY, hfC⟩ := hfl
  rcases hcls with h | h | h | h
  · obtain ⟨hm, g1, g2, hl⟩ := classify_line_elim l h
    rw [hl] at hfL
    simp only [floatsOkB, List.all_cons, List.all_nil, Bool.and_true,
      Bool.and_eq_true] at hfL
    obtain ⟨x, hx⟩ := Option.isSome_iff_exists.1 hfL.1
    obtain ⟨y, hy⟩ := Option.isSome_iff_exists.1 hfL.2
    unfold stepBuild
    simp only [hm, hl, hx, hy, toFloat]
    rfl
  · obtain ⟨hm, hln, g1, g2, g3, g4, hl⟩ := classify_startCurve_elim l h
    rw [hl] at hfV
    simp only [floatsOkB, List.all_cons, List.all_nil, Bool.and_true,
      Bool.and_eq_true] at hfV
    obtain ⟨x1, hx1⟩ := Option.isSome_iff_exists.1 hfV.1
    obtain ⟨y1, hy1⟩ := Option.isSome_iff_exists.1 hfV.2.1
    obtain ⟨x2, hx2⟩ := Option.isSome_iff_exists.1 hfV.2.2.1
    obtain ⟨y2, hy2⟩ := Option.isSome_iff_exists.1 hfV.2.2.2
    unfold stepBuild
    simp only [hm, hln, hl, hx1, hy1, hx2, hy2, toFloat]
    rfl
  · obtain ⟨hm, hln, hv, g1, g2, g3, g4, hl⟩ := classify_endCurve_elim l h
    rw [hl] at hfY
    simp only [floatsOkB, List.all_cons, List.all_nil, Bool.and_true,
      Bool.and_eq_true] at hfY
    obtain ⟨x1, hx1⟩ := Option.isSome_iff_exists.1 hfY.1
    obtain ⟨y1, hy1⟩ := Option.isSome_iff_exists.1 hfY.2.1
    obtain ⟨x2, hx2⟩ := Option.isSome_iff_exists.1 hfY.2.2.1
    obtain ⟨y2, hy2⟩ := Option.isSome_iff_exists.1 hfY.2.2.2
    unfold stepBuild
    simp only [hm, hln, hv, hl, hx1, hy1, hx2, hy2, toFloat]
    rfl
  · obtain ⟨hm, hln, hv, hy, g1, g2, g3, g4, g5, g6, hl⟩ := classify_curve_elim l h
    rw [hl] at hfC
    simp only [floatsOkB, List.all_cons, List.all_nil, Bool.and_true,
      Bool.and_eq_true] at hfC
    obtain ⟨x1, hx1⟩ := Option.isSome_iff_exists.1 hfC.1
    obtain ⟨y1, hy1⟩ := Option.isSome_iff_exists.1 hfC.2.1
    obtain ⟨x2, hx2⟩ := Option.isSome_iff_exists.1 hfC.2.2.1
    obtain ⟨y2, hy2⟩ := Option.isSome_iff_exists.1 hfC.2.2.2.1
    obtain ⟨x3, hx3⟩ := Option.isSome_iff_exists.1 hfC.2.2.2.2.1
    obtain ⟨y3, hy3⟩ := Option.isSome_iff_exists.1 hfC.2.2.2.2.2
    unfold stepBuild
    simp only [hm, hln, hv, hy, hl, hx1, hy1, hx2, hy2, hx3, hy3, toFloat]
    rfl

/-- A run of unmatched lines followed by an error-raising token makes
the whole builder fold raise. -/
theorem foldlM_stepBuild_prefix_error (pre : List (List Char)) (l : List Char)
    (rest : List (List Char)) (hpre : ∀ p ∈ pre, classifyLine p = .noMatch)
    (hstep : stepBuild ([], none) l = .error .indexError) :
    (pre ++ l :: rest).foldlM stepBuild (([], none) : BState) = .error .indexError := by
  induction pre with
  | nil =>
    rw [List.nil_append, List.foldlM_cons, hstep]
    rfl
  | cons p ps ih =>
    rw [List.cons_append, List.foldlM_cons, stepBuild_noMatch _ _ (hpre p (by simp))]
    exact ih (fun q hq => hpre q (by simp [hq]))

/-- C10 amended — every input whose first classified path token is a
line/start-shorthand/end-shorthand/full-curve token with float-parseable
operands makes `drawAICBOutlines` raise an uncaught `IndexError` from
the append to the last element of the empty contour list: it neither
returns `False` nor skips the token.  (When an operand fails float
conversion, a `ValueError` is raised first — see the counterexample.) -/
theorem c10_indexerror_amended (data : List Char) (fit : ORect) (fs : Option ℚ)
    (pre rest : List (List Char)) (l : List Char)
    (hsplit : pySplitLines data = pre ++ l :: rest)
    (hpre : ∀ p ∈ pre, classifyLine p = .noMatch)
    (hcls : classifyLine l = .line ∨ classifyLine l = .startCurve ∨
      classifyLine l = .endCurve ∨ classifyLine l = .curve)
    (hfl : floatsOkB (matchLineto l) = true ∧ floatsOkB (matchStartCurveTo l) = true ∧
      floatsOkB (matchEndCurveTo l) = true ∧ floatsOkB (matchCurveTo l) = true) :
    drawAICBOutlines data fit fs = .error .indexError := by
  unfold drawAICBOutlines
  rw [hsplit, foldlM_stepBuild_prefix_error pre l rest hpre
    (stepBuild_token_on_empty l hcls hfl)]

/-- Witness for C10's amended statement: a comment line followed by
`"0 0 l"` as the first classified token raises `IndexError`. -/
theorem c10_indexerror_amended_witness :
    drawAICBOutlines "%comment\n0 0 l".data fitNone none = .error .indexError :=
  c10_indexerror_amended "%comment\n0 0 l".data fitNone none
    ["%comment".data] [] "0 0 l".data (by decide) (by decide) (by decide)
    ⟨by decide, by decide, by decide, by decide⟩

/-! ## The classifier against the regex decomposition semantics -/

/-- The operand class and the whitespace class are disjoint. -/
theorem space_not_num {c : Char} (h : pyIsSpace c = true) : isNumChar c = false := by
  simp only [pyIsSpace, Bool.or_eq_true, beq_iff_eq] at h
  rcases h with ((((h | h) | h) | h) | h) | h <;> subst h <;> rfl

/-- Maximal-munch determinism: a decomposition into an operand run
followed by a whitespace character is recovered exactly by
`takeWhile`/`dropWhile`. -/
theorem munch (r : List Char) (c : Char) (t : List Char)
    (hr : ∀ x ∈ r, isNumChar x = true) (hc : pyIsSpace c = true) :
    (r ++ c :: t).takeWhile isNumChar = r ∧
    (r ++ c :: t).dropWhile isNumChar = c :: t := by
  induction r with
  | nil =>
    have : ¬ isNumChar c = true := by simp [space_not_num hc]
    simp [List.takeWhile_cons_of_neg this, List.dropWhile_cons_of_neg this]
  | cons x r' ih =>
    have hx : isNumChar x = true := hr x (by simp)
    obtain ⟨ih1, ih2⟩ := ih (fun y hy => hr y (by simp [hy]))
    simp [List.takeWhile_cons_of_pos hx, List.dropWhile_cons_of_pos hx, ih1, ih2]

/-- No line shaped like a token is empty. -/
theorem shaped_not_nil (gs : List Bool) (ops : List Char) :
    ¬ shapedFrom gs ops [] := by
  cases gs with
  | nil =>
    rintro ⟨c, h, -⟩
    exact absurd h (by simp)
  | cons g rest =>
    rintro ⟨r, c, t, h, -⟩
    cases r <;> simp at h

/-- The deterministic matcher succeeds exactly on the lines admitted by
the regex decomposition semantics. -/
theorem matchRuns_isSome_iff (gs : List Bool) (ops : List Char) (l : List Char) :
    (matchRuns gs ops l).isSome = true ↔ shapedFrom gs ops l := by
  induction gs generalizing l with
  | nil =>
    unfold matchRuns shapedFrom
    rcases l with _ | ⟨c, _ | ⟨d, t⟩⟩
    · simp
    · by_cases hc : c ∈ ops <;> simp [hc]
    · simp
  | cons g rest ih =>
    constructor
    · intro h
      rw [matchRuns] at h
      split at h
      · simp at h
      · rename_i hg
        split at h
        · rename_i c tail heq
          split at h
          · rename_i hsp
            refine ⟨l.takeWhile isNumChar, c, tail, ?_, ?_, ?_, hsp, ?_⟩
            · conv_lhs => rw [← List.takeWhile_append_dropWhile isNumChar l]
              rw [heq]
            · exact fun x hx => List.mem_takeWhile_imp hx
            · intro hgt
              rw [hgt] at hg
              simpa using hg
            · exact ih tail |>.1 (by simpa using h)
          · simp at h
        · simp at h
    · rintro ⟨r, c, t, hl, hnum, hne, hsp, hrec⟩
      subst hl
      obtain ⟨htake, hdrop⟩ := munch r c t hnum hsp
      have hg2 : (g && r.isEmpty) = false := by
        cases g with
        | false => rfl
        | true =>
          cases r with
          | nil => exact absurd rfl (hne rfl)
          | cons x r' => rfl
      simp only [matchRuns, htake, hdrop, hg2, hsp]
      simpa using (ih t).2 hrec

/-- A line admits at most one decomposition: two shapes matching the
same line have the same group count and share an operator character. -/
theorem shaped_unique (gs₁ : List Bool) (ops₁ : List Char) :
    ∀ (gs₂ : List Bool) (ops₂ : List Char) (l : List Char),
      shapedFrom gs₁ ops₁ l → shapedFrom gs₂ ops₂ l →
      gs₁.length = gs₂.length ∧ ∃ c, c ∈ ops₁ ∧ c ∈ ops₂ := by
  induction gs₁ with
  | nil =>
    rintro gs₂ ops₂ l ⟨c, rfl, hc⟩ h₂
    cases gs₂ with
    | nil =>
      obtain ⟨c', hc', hm⟩ := h₂
      obtain rfl : c = c' := by simpa using hc'
      exact ⟨rfl, c, hc, hm⟩
    | cons g rest =>
      obtain ⟨r, w, t, hl, -, -, -, hrec⟩ := h₂
      rcases r with _ | ⟨x, r'⟩
      · simp only [List.nil_append, List.cons.injEq] at hl
        rw [← hl.2] at hrec
        exact absurd hrec (shaped_not_nil rest ops₂)
      · simp only [List.cons_append, List.cons.injEq] at hl
        exact absurd hl.2.symm (by simp)
  | cons g rest ih =>
    rintro gs₂ ops₂ l ⟨r, w, t, hl, hnum, -, hsp, hrec⟩ h₂
    subst hl
    cases gs₂ with
    | nil =>
      obtain ⟨c, hc, hm⟩ := h₂
      rcases r with _ | ⟨x, r'⟩
      · simp only [List.nil_append, List.cons.injEq] at hc
        rw [hc.2] at hrec
        exact absurd hrec (shaped_not_nil rest ops₁)
      · simp only [List.cons_append, List.cons.injEq] at hc
        exact absurd hc.2 (by simp)
    | cons g₂ rest₂ =>
      obtain ⟨r₂, w₂, t₂, hl₂, hnum₂, -, hsp₂, hrec₂⟩ := h₂
      obtain ⟨ht1, hd1⟩ := munch r w t hnum hsp
      obtain ⟨ht2, hd2⟩ := munch r₂ w₂ t₂ hnum₂ hsp₂
      rw [hl₂] at hd1
      rw [hd2] at hd1
      injection hd1 with hw htt
      rw [htt] at hrec₂
      obtain ⟨hlen, hops⟩ := ih rest₂ ops₂ t hrec hrec₂
      exact ⟨by simp [hlen], hops⟩

/-- A match failure follows from refuting the decomposition semantics. -/
theorem isSome_false_of_not_shaped (o : Option (List (List Char))) (P : Prop)
    (hiff : o.isSome = true ↔ P) (hnp : ¬ P) : o.isSome = false := by
  cases h : o.isSome
  · rfl
  · exact absurd (hiff.1 h) hnp

/-- C5 amended — the classifier assigns each classification exactly when
the entire line decomposes as the shape's count of operand runs over
`{0-9, -, .}` (each nonempty, except the full-curve's third, star, run),
each followed by one whitespace character, ending in one operator
character of the shape's class, where the classes are `{m}`, `{l,|,L}`,
`{v,|,V}`, `{y,|,Y}`, `{c,|,C}` (the literal `'|'` comes from the
source's `[l|L]`-style classes); a four-run line ending in `'|'`
classifies as start-shorthand, which is tried first, never as
end-shorthand; every other line is a no-match. -/
theorem c5_classifier_amended (l : List Char) :
    (classifyLine l = .move ↔ shapedFrom [true, true] ['m'] l) ∧
    (classifyLine l = .line ↔ shapedFrom [true, true] ['l', '|', 'L'] l) ∧
    (classifyLine l = .startCurve ↔
      shapedFrom [true, true, true, true] ['v', '|', 'V'] l) ∧
    (classifyLine l = .endCurve ↔
      (shapedFrom [true, true, true, true] ['y', '|', 'Y'] l ∧
       ¬ shapedFrom [true, true, true, true] ['v', '|', 'V'] l)) ∧
    (classifyLine l = .curve ↔
      shapedFrom [true, true, false, true, true, true] ['c', '|', 'C'] l) ∧
    (classifyLine l = .noMatch ↔
      (¬ shapedFrom [true, true] ['m'] l ∧
       ¬ shapedFrom [true, true] ['l', '|', 'L'] l ∧
       ¬ shapedFrom [true, true, true, true] ['v', '|', 'V'] l ∧
       ¬ shapedFrom [true, true, true, true] ['y', '|', 'Y'] l ∧
       ¬ shapedFrom [true, true, false, true, true, true] ['c', '|', 'C'] l)) := by
  have pm : (matchMoveto l).isSome = true ↔ shapedFrom [true, true] ['m'] l :=
    matchRuns_isSome_iff _ _ l
  have pl : (matchLineto l).isSome = true ↔ shapedFrom [true, true] ['l', '|', 'L'] l :=
    matchRuns_isSome_iff _ _ l
  have pv : (matchStartCurveTo l).isSome = true ↔
      shapedFrom [true, true, true, true] ['v', '|', 'V'] l :=
    matchRuns_isSome_iff _ _ l
  have py : (matchEndCurveTo l).isSome = true ↔
      shapedFrom [true, true, true, true] ['y', '|', 'Y'] l :=
    matchRuns_isSome_iff _ _ l
  have pc : (matchCurveTo l).isSome = true ↔
      shapedFrom [true, true, false, true, true, true] ['c', '|', 'C'] l :=
    matchRuns_isSome_iff _ _ l
  have len24 : ∀ (ops₁ ops₂ : List Char), shapedFrom [true, true] ops₁ l →
      shapedFrom [true, true, true, true] ops₂ l → False := by
    intro ops₁ ops₂ h1 h2
    obtain ⟨hlen, -⟩ := shaped_unique _ _ _ _ _ h1 h2
    simp at hlen
  have len26 : ∀ (ops₁ ops₂ : List Char), shapedFrom [true, true] ops₁ l →
      shapedFrom [true, true, false, true, true, true] ops₂ l → False := by
    intro ops₁ ops₂ h1 h2
    obtain ⟨hlen, -⟩ := shaped_unique _ _ _ _ _ h1 h2
    simp at hlen
  have len46 : ∀ (ops₁ ops₂ : List Char),
      shapedFrom [true, true, true, true] ops₁ l →
      shapedFrom [true, true, false, true, true, true] ops₂ l → False := by
    intro ops₁ ops₂ h1 h2
    obtain ⟨hlen, -⟩ := shaped_unique _ _ _ _ _ h1 h2
    simp at hlen
  have exml : shapedFrom [true, true] ['m'] l →
      shapedFrom [true, true] ['l', '|', 'L'] l → False := by
    intro h1 h2
    obtain ⟨-, c, hc1, hc2⟩ := shaped_unique _ _ _ _ _ h1 h2
    simp only [List.mem_singleton] at hc1
    subst hc1
    exact absurd hc2 (by decide)
  have cm : classifyLine l = .move ↔ (matchMoveto l).isSome = true := by
    unfold classifyLine
    split_ifs <;> simp_all
  have cl : classifyLine l = .line ↔
      ((matchMoveto l).isSome = false ∧ (matchLineto l).isSome = true) := by
    unfold classifyLine
    split_ifs <;> simp_all
  have cv : classifyLine l = .startCurve ↔
      ((matchMoveto l).isSome = false ∧ (matchLineto l).isSome = false ∧
       (matchStartCurveTo l).isSome = true) := by
    unfold classifyLine
    split_ifs <;> simp_all
  have cy : classifyLine l = .endCurve ↔
      ((matchMoveto l).isSome = false ∧ (matchLineto l).isSome = false ∧
       (matchStartCurveTo l).isSome = false ∧ (matchEndCurveTo l).isSome = true) := by
    unfold classifyLine
    split_ifs <;> simp_all
  have cc : classifyLine l = .curve ↔
      ((matchMoveto l).isSome = false ∧ (matchLineto l).isSome = false ∧
       (matchStartCurveTo l).isSome = false ∧ (matchEndCurveTo l).isSome = false ∧
       (matchCurveTo l).isSome = true) := by
    unfold classifyLine
    split_ifs <;> simp_all
  have cn : classifyLine l = .noMatch ↔
      ((matchMoveto l).isSome = false ∧ (matchLineto l).isSome = false ∧
       (matchStartCurveTo l).isSome = false ∧ (matchEndCurveTo l).isSome = false ∧
       (matchCurveTo l).isSome = false) := by
    unfold classifyLine
    split_ifs <;> simp_all
  refine ⟨?_, ?_, ?_, ?_, ?_, ?_⟩
  · rw [cm]
    exact pm
  · rw [cl]
    constructor
    · rintro ⟨-, h2⟩
      exact pl.1 h2
    · intro hs
      exact ⟨isSome_false_of_not_shaped _ _ pm (fun hm => exml hm hs), pl.2 hs⟩
  · rw [cv]
    constructor
    · rintro ⟨-, -, h3⟩
      exact pv.1 h3
    · intro hs
      exact ⟨isSome_false_of_not_shaped _ _ pm (fun hm => len24 _ _ hm hs),
             isSome_false_of_not_shaped _ _ pl (fun hm => len24 _ _ hm hs),
             pv.2 hs⟩
  · rw [cy]
    constructor
    · rintro ⟨-, -, h3, h4⟩
      exact ⟨py.1 h4, fun hv => absurd (pv.2 hv) (by simp [h3])⟩
    · rintro ⟨hs, hnv⟩
      exact ⟨isSome_false_of_not_shaped _ _ pm (fun hm => len24 _ _ hm hs),
             isSome_false_of_not_shaped _ _ pl (fun hm => len24 _ _ hm hs),
             isSome_false_of_not_shaped _ _ pv hnv,
             py.2 hs⟩
  · rw [cc]
    constructor
    · rintro ⟨-, -, -, -, h5⟩
      exact pc.1 h5
    · intro hs
      exact ⟨isSome_false_of_not_shaped _ _ pm (fun hm => len26 _ _ hm hs),
             isSome_false_of_not_shaped _ _ pl (fun hm => len26 _ _ hm hs),
             isSome_false_of_not_shaped _ _ pv (fun hm => len46 _ _ hm hs),
             isSome_false_of_not_shaped _ _ py (fun hm => len46 _ _ hm hs),
             pc.2 hs⟩
  · rw [cn]
    constructor
    · rintro ⟨h1, h2, h3, h4, h5⟩
      exact ⟨fun hs => absurd (pm.2 hs) (by simp [h1]),
             fun hs => absurd (pl.2 hs) (by simp [h2]),
             fun hs => absurd (pv.2 hs) (by simp [h3]),
             fun hs => absurd (py.2 hs) (by simp [h4]),
             fun hs => absurd (pc.2 hs) (by simp [h5])⟩
    · rintro ⟨n1, n2, n3, n4, n5⟩
      exact ⟨isSome_false_of_not_shaped _ _ pm n1,
             isSome_false_of_not_shaped _ _ pl n2,
             isSome_false_of_not_shaped _ _ pv n3,
             isSome_false_of_not_shaped _ _ py n4,
             isSome_false_of_not_shaped _ _ pc n5⟩

/-! ## Decimal numerals, truncation, and bounding-box resolution -/

/-- A digit character's value is at most 9. -/
theorem digit_val_le (c : Char) (h : c.isDigit = true) : c.toNat - '0'.toNat ≤ 9 := by
  simp only [Char.isDigit, ge_iff_le, Bool.and_eq_true, decide_eq_true_eq] at h
  have h2 : c.val.toNat ≤ 57 := UInt32.toNat_le_of_le (by decide) h.2
  have h3 : c.toNat = c.val.toNat := rfl
  have h4 : '0'.toNat = 48 := rfl
  omega

/-- A digit character is not a space. -/
theorem digit_ne_space (c : Char) (h : c.isDigit = true) : c ≠ ' ' := by
  intro hc
  subst hc
  exact absurd h (by decide)

/-- A digit character is not a dot. -/
theorem digit_bne_dot (c : Char) (h : c.isDigit = true) : (c != '.') = true := by
  cases hc : decide (c = '.') with
  | false => simpa [bne_iff_ne] using of_decide_eq_false hc
  | true =>
    rw [of_decide_eq_true hc] at h
    exact absurd h (by decide)

/-- Fold bound for `natOfDigits`, generalizing the accumulator. -/
theorem natOfDigits_aux (ds : List Char) :
    ∀ acc : ℕ, ds.all Char.isDigit = true →
      ds.foldl (fun acc c => 10 * acc + (c.toNat - '0'.toNat)) acc <
        (acc + 1) * 10 ^ ds.length := by
  induction ds with
  | nil =>
    intro acc _
    simp
  | cons c ds ih =>
    intro acc h
    simp only [List.all_cons, Bool.and_eq_true] at h
    have hd : c.toNat - '0'.toNat ≤ 9 := digit_val_le c h.1
    have hrec := ih (10 * acc + (c.toNat - '0'.toNat)) h.2
    calc
      (c :: ds).foldl (fun acc c => 10 * acc + (c.toNat - '0'.toNat)) acc
          = ds.foldl (fun acc c => 10 * acc + (c.toNat - '0'.toNat))
              (10 * acc + (c.toNat - '0'.toNat)) := by rw [List.foldl_cons]
      _ < (10 * acc + (c.toNat - '0'.toNat) + 1) * 10 ^ ds.length := hrec
      _ ≤ ((acc + 1) * 10) * 10 ^ ds.length :=
            Nat.mul_le_mul_right _ (by omega)
      _ = (acc + 1) * 10 ^ (c :: ds).length := by
            rw [List.length_cons, pow_succ]
            ring

/-- The value of a digit string is below `10 ^ length`. -/
theorem natOfDigits_lt (ds : List Char) (h : ds.all Char.isDigit = true) :
    natOfDigits ds < 10 ^ ds.length := by
  simpa [natOfDigits] using natOfDigits_aux ds 0 h

/-- The fractional part of a decimal numeral lies in `[0, 1)`. -/
theorem fracVal_bounds (fp : List Char) (h : fp.all Char.isDigit = true) :
    0 ≤ fracVal fp ∧ fracVal fp < 1 := by
  unfold fracVal
  constructor
  · positivity
  · rw [div_lt_one (by positivity)]
    exact_mod_cast natOfDigits_lt fp h

/-- Truncation toward zero of `n + f` and `-(n + f)` for `0 ≤ f < 1`. -/
theorem truncQ_add_frac (n : ℕ) (f : ℚ) (h0 : 0 ≤ f) (h1 : f < 1) :
    truncQ ((n : ℚ) + f) = n ∧ truncQ (-((n : ℚ) + f)) = -(n : ℤ) := by
  have hfl : ⌊(n : ℚ) + f⌋ = (n : ℤ) := by
    rw [Int.floor_eq_iff]
    constructor
    · push_cast
      linarith
    · push_cast
      linarith
  constructor
  · rw [truncQ, if_pos (by positivity)]
    exact hfl
  · by_cases hz : (n : ℚ) + f = 0
    · rw [hz, neg_zero, truncQ, if_pos le_rfl, Int.floor_zero]
      have hn : (n : ℚ) = 0 := by nlinarith
      have : n = 0 := by exact_mod_cast hn
      simp [this]
    · have hpos : 0 < (n : ℚ) + f := lt_of_le_of_ne (by positivity) (Ne.symm hz)
      rw [truncQ, if_neg (by rw [not_le]; linarith), neg_neg, hfl]

/-- No space character occurs in a list whose members all satisfy a
predicate that excludes spaces. -/
theorem dropWhile_eq_self_of_none (p : Char → Bool) (l : List Char)
    (h : ∀ c ∈ l, p c = false) : l.dropWhile p = l := by
  cases l with
  | nil => rfl
  | cons c cs =>
    exact List.dropWhile_cons_of_neg (by simp [h c (by simp)])

/-- `stripWS` is the identity on space-free strings. -/
theorem stripWS_eq_self (l : List Char) (h : ∀ c ∈ l, pyIsSpace c = false) :
    stripWS l = l := by
  unfold stripWS
  rw [dropWhile_eq_self_of_none _ _ h,
      dropWhile_eq_self_of_none _ _ (fun c hc => h c (by simpa using hc)),
      List.reverse_reverse]

/-- A digit character is not whitespace. -/
theorem digit_not_space (c : Char) (h : c.isDigit = true) : pyIsSpace c = false := by
  by_contra hc
  rw [Bool.not_eq_false] at hc
  simp only [pyIsSpace, Bool.or_eq_true, beq_iff_eq] at hc
  rcases hc with ((((hc | hc) | hc) | hc) | hc) | hc <;> subst hc <;>
    exact absurd h (by decide)

/-- Neither a sign character nor a digit is whitespace. -/
theorem signed_digits_no_ws (sg : Bool) (ip : List Char)
    (h2 : ip.all Char.isDigit = true) :
    ∀ c ∈ (if sg then ['-'] else []) ++ ip, pyIsSpace c = false := by
  intro c hc
  rcases List.mem_append.1 hc with hc | hc
  · cases sg with
    | false => simp at hc
    | true =>
      simp only [if_true, List.mem_singleton] at hc
      subst hc
      rfl
  · exact digit_not_space c (List.all_eq_true.1 h2 c hc)

/-- Python's `int` on an optional minus sign followed by digits. -/
theorem pyInt_signed_digits (sg : Bool) (ip : List Char)
    (h1 : ip ≠ []) (h2 : ip.all Char.isDigit = true) :
    pyInt ((if sg then ['-'] else []) ++ ip) =
      some (if sg then -(natOfDigits ip : ℤ) else (natOfDigits ip : ℤ)) := by
  have hne : ip.isEmpty = false := by
    cases ip with
    | nil => exact absurd rfl h1
    | cons c cs => rfl
  have hws := signed_digits_no_ws sg ip h2
  cases sg with
  | true =>
    unfold pyInt
    rw [stripWS_eq_self _ hws]
    simp [hne, h2]
  | false =>
    have hws' : ∀ c ∈ ip, pyIsSpace c = false := fun c hc => hws c (by simpa using hc)
    show pyInt ip = some ((natOfDigits ip : ℤ))
    unfold pyInt
    rw [stripWS_eq_self _ hws']
    split
    · simp only [List.all_cons, Bool.and_eq_true] at h2
      exact absurd h2.1 (by decide)
    · simp only [List.all_cons, Bool.and_eq_true] at h2
      exact absurd h2.1 (by decide)
    · simp [hne, h2]

/-- A list all of whose members satisfy `p` is its own `takeWhile`. -/
theorem takeWhile_eq_self_of_all (p : Char → Bool) (l : List Char)
    (h : ∀ c ∈ l, p c = true) : l.takeWhile p = l := by
  induction l with
  | nil => rfl
  | cons c cs ih =>
    rw [List.takeWhile_cons_of_pos (h c (by simp)), ih (fun x hx => h x (by simp [hx]))]

/-- `split('.')[0]` on a decimal numeral keeps the sign and integer
digits and drops the dot and everything after it. -/
theorem takeBeforeDot_mkNumTok (sg : Bool) (ip : List Char) (fpo : Option (List Char))
    (h2 : ip.all Char.isDigit = true) :
    takeBeforeDot (mkNumTok sg ip fpo) = (if sg then ['-'] else []) ++ ip := by
  have hfront : ∀ c ∈ (if sg then ['-'] else []) ++ ip, (c != '.') = true := by
    intro c hc
    rcases List.mem_append.1 hc with hc | hc
    · cases sg with
      | false => simp at hc
      | true =>
        simp only [if_true, List.mem_singleton] at hc
        subst hc
        rfl
    · exact digit_bne_dot c (List.all_eq_true.1 h2 c hc)
  cases fpo with
  | none =>
    simp only [mkNumTok, takeBeforeDot, List.append_nil]
    exact takeWhile_eq_self_of_all _ _ hfront
  | some fp =>
    simp only [mkNumTok, takeBeforeDot]
    rw [List.takeWhile_append_of_pos hfront,
        List.takeWhile_cons_of_neg (by decide)]
    simp

/-- The central truncation fact: on a well-formed decimal numeral token
denoting value `v`, the code's `int(tok.split('.')[0])` computes exactly
the truncation of `v` toward zero. -/
theorem trunc_decTokVal (sg : Bool) (ip fp : List Char)
    (h3 : fp.all Char.isDigit = true) :
    truncQ (decTokVal sg ip fp) =
      if sg then -(natOfDigits ip : ℤ) else (natOfDigits ip : ℤ) := by
  obtain ⟨hf0, hf1⟩ := fracVal_bounds fp h3
  obtain ⟨htp, htn⟩ := truncQ_add_frac (natOfDigits ip) (fracVal fp) hf0 hf1
  cases sg with
  | false => simpa [decTokVal] using htp
  | true =>
    have heq : decTokVal true ip fp = -((natOfDigits ip : ℚ) + fracVal fp) := by
      unfold decTokVal
      norm_num
    rw [heq, htn]
    rfl

theorem pyIntTrunc_of_DecTok (t : List Char) (v : ℚ) (h : DecTok t v) :
    pyInt (takeBeforeDot t) = some (truncQ v) := by
  obtain ⟨sg, ip, fpo, rfl, h1, h2, h3, hv⟩ := h
  rw [takeBeforeDot_mkNumTok sg ip fpo h2, pyInt_signed_digits sg ip h1 h2]
  rcases fpo with _ | fp
  · rw [hv, trunc_decTokVal sg ip [] rfl]
  · rw [hv, trunc_decTokVal sg ip fp h3]

/-- Splitting on spaces peels a space-free token off the front. -/
theorem pySplitSpace_append (t rest : List Char) (h : ∀ c ∈ t, c ≠ ' ') :
    pySplitSpace (t ++ ' ' :: rest) = t :: pySplitSpace rest := by
  induction t with
  | nil => rfl
  | cons c cs ih =>
    have hc : (c == ' ') = false := by
      simpa using h c (by simp)
    rw [List.cons_append, pySplitSpace, hc]
    simp only [Bool.false_eq_true, if_false]
    rw [ih (fun x hx => h x (by simp [hx]))]

/-- A space-free string splits into itself. -/
theorem pySplitSpace_nosep (t : List Char) (h : ∀ c ∈ t, c ≠ ' ') :
    pySplitSpace t = [t] := by
  induction t with
  | nil => rfl
  | cons c cs ih =>
    have hc : (c == ' ') = false := by
      simpa using h c (by simp)
    rw [pySplitSpace, hc]
    simp only [Bool.false_eq_true, if_false]
    rw [ih (fun x hx => h x (by simp [hx]))]

/-- Decimal numeral tokens contain no space character. -/
theorem DecTok_no_space (t : List Char) (v : ℚ) (h : DecTok t v) :
    ∀ c ∈ t, c ≠ ' ' := by
  obtain ⟨sg, ip, fpo, rfl, -, h2, h3, -⟩ := h
  intro c hc
  rcases List.mem_append.1 hc with hc | hc
  · rcases List.mem_append.1 hc with hc | hc
    · cases sg with
      | false => simp at hc
      | true =>
        simp only [if_true, List.mem_singleton] at hc
        subst hc
        decide
    · exact digit_ne_space c (List.all_eq_true.1 h2 c hc)
  · cases fpo with
    | none => simp at hc
    | some fp =>
      simp only at hc
      rcases List.mem_cons.1 hc with hc | hc
      · subst hc
        decide
      · exact digit_ne_space c (List.all_eq_true.1 h3 c hc)

/-- The bounds fold only shrinks the mins and grows the maxes. -/
theorem boundsStep_mono (ps : List Pt) :
    ∀ acc : ℚ × ℚ × ℚ × ℚ,
      (ps.foldl boundsStep acc).1 ≤ acc.1 ∧
      (ps.foldl boundsStep acc).2.1 ≤ acc.2.1 ∧
      acc.2.2.1 ≤ (ps.foldl boundsStep acc).2.2.1 ∧
      acc.2.2.2 ≤ (ps.foldl boundsStep acc).2.2.2 := by
  induction ps with
  | nil =>
    intro acc
    simp
  | cons p ps ih =>
    intro acc
    rw [List.foldl_cons]
    obtain ⟨i1, i2, i3, i4⟩ := ih (boundsStep acc p)
    exact ⟨le_trans i1 (min_le_left _ _), le_trans i2 (min_le_left _ _),
           le_trans (le_max_left _ _) i3, le_trans (le_max_left _ _) i4⟩

/-- Every member of the folded list lies inside the folded bounds. -/
theorem boundsStep_encloses (ps : List Pt) :
    ∀ (acc : ℚ × ℚ × ℚ × ℚ) (q : Pt), q ∈ ps →
      (ps.foldl boundsStep acc).1 ≤ q.1 ∧
      (ps.foldl boundsStep acc).2.1 ≤ q.2 ∧
      q.1 ≤ (ps.foldl boundsStep acc).2.2.1 ∧
      q.2 ≤ (ps.foldl boundsStep acc).2.2.2 := by
  induction ps with
  | nil =>
    intro acc q hq
    simp at hq
  | cons p ps ih =>
    intro acc q hq
    rw [List.foldl_cons]
    rcases List.mem_cons.1 hq with rfl | hq
    · obtain ⟨i1, i2, i3, i4⟩ := boundsStep_mono ps (boundsStep acc q)
      exact ⟨le_trans i1 (min_le_right _ _), le_trans i2 (min_le_right _ _),
             le_trans (le_max_right _ _) i3, le_trans (le_max_right _ _) i4⟩
    · exact ih (boundsStep acc p) q hq

/-- Each folded bound is attained: it is the accumulator's value or the
coordinate of some member. -/
theorem boundsStep_attained (ps : List Pt) :
    ∀ acc : ℚ × ℚ × ℚ × ℚ,
      ((ps.foldl boundsStep acc).1 = acc.1 ∨ ∃ q ∈ ps, (ps.foldl boundsStep acc).1 = q.1) ∧
      ((ps.foldl boundsStep acc).2.1 = acc.2.1 ∨
        ∃ q ∈ ps, (ps.foldl boundsStep acc).2.1 = q.2) ∧
      ((ps.foldl boundsStep acc).2.2.1 = acc.2.2.1 ∨
        ∃ q ∈ ps, (ps.foldl boundsStep acc).2.2.1 = q.1) ∧
      ((ps.foldl boundsStep acc).2.2.2 = acc.2.2.2 ∨
        ∃ q ∈ ps, (ps.foldl boundsStep acc).2.2.2 = q.2) := by
  induction ps with
  | nil =>
    intro acc
    simp
  | cons p ps ih =>
    intro acc
    rw [List.foldl_cons]
    obtain ⟨i1, i2, i3, i4⟩ := ih (boundsStep acc p)
    refine ⟨?_, ?_, ?_, ?_⟩
    · rcases i1 with h | ⟨q, hq, h⟩
      · rcases min_choice acc.1 p.1 with hm | hm
        · exact Or.inl (by rw [h]; exact hm)
        · exact Or.inr ⟨p, by simp, by rw [h]; exact hm⟩
      · exact Or.inr ⟨q, by simp [hq], h⟩
    · rcases i2 with h | ⟨q, hq, h⟩
      · rcases min_choice acc.2.1 p.2 with hm | hm
        · exact Or.inl (by rw [h]; exact hm)
        · exact Or.inr ⟨p, by simp, by rw [h]; exact hm⟩
      · exact Or.inr ⟨q, by simp [hq], h⟩
    · rcases i3 with h | ⟨q, hq, h⟩
      · rcases max_choice acc.2.2.1 p.1 with hm | hm
        · exact Or.inl (by rw [h]; exact hm)
        · exact Or.inr ⟨p, by simp, by rw [h]; exact hm⟩
      · exact Or.inr ⟨q, by simp [hq], h⟩
    · rcases i4 with h | ⟨q, hq, h⟩
      · rcases max_choice acc.2.2.2 p.2 with hm | hm
        · exact Or.inl (by rw [h]; exact hm)
        · exact Or.inr ⟨p, by simp, by rw [h]; exact hm⟩
      · exact Or.inr ⟨q, by simp [hq], h⟩

/-- C8 — bounding-box resolution.  (1) When the first declared directive
captures four decimal numeral tokens, each is truncated toward zero
(`truncQ` of the denoted value); the declared box is used unless it is
exactly `(0,0,0,0)`, in which case the computed fallback box is used.
(2) A missing declaration also falls back to the computed box.  (3) The
computed box is the tight enclosing rectangle of every stored point —
`allPoints` includes curve control points as well as Move/Line/Curve
destinations — with each bound attained. -/
theorem c8_bbox_resolution :
    (∀ (doc : List Char) (cs : List (List BOp)) (t1 t2 t3 t4 : List Char)
       (v1 v2 v3 v4 : ℚ),
       DecTok t1 v1 → DecTok t2 v2 → DecTok t3 v3 → DecTok t4 v4 →
       findBBoxCapture doc = some (t1 ++ (' ' :: (t2 ++ (' ' :: (t3 ++ (' ' :: t4)))))) →
       resolveBoundingBox doc cs =
         if [truncQ v1, truncQ v2, truncQ v3, truncQ v4] = [0, 0, 0, 0] then
           computedBounds cs
         else
           .ok ((truncQ v1 : ℚ), (truncQ v2 : ℚ), (truncQ v3 : ℚ), (truncQ v4 : ℚ))) ∧
    (∀ (doc : List Char) (cs : List (List BOp)),
       findBBoxCapture doc = none → resolveBoundingBox doc cs = computedBounds cs) ∧
    (∀ (p : Pt) (rest : List Pt),
       calcBounds (p :: rest) = rest.foldl boundsStep (p.1, p.2, p.1, p.2) ∧
       ∀ b1 b2 b3 b4 : ℚ, calcBounds (p :: rest) = (b1, b2, b3, b4) →
         (∀ q ∈ p :: rest, b1 ≤ q.1 ∧ b2 ≤ q.2 ∧ q.1 ≤ b3 ∧ q.2 ≤ b4) ∧
         ((b1 = p.1 ∨ ∃ q ∈ rest, b1 = q.1) ∧ (b2 = p.2 ∨ ∃ q ∈ rest, b2 = q.2) ∧
          (b3 = p.1 ∨ ∃ q ∈ rest, b3 = q.1) ∧ (b4 = p.2 ∨ ∃ q ∈ rest, b4 = q.2))) := by
  refine ⟨?_, ?_, ?_⟩
  · intro doc cs t1 t2 t3 t4 v1 v2 v3 v4 h1 h2 h3 h4 hcap
    unfold resolveBoundingBox
    simp only [hcap]
    rw [pySplitSpace_append _ _ (DecTok_no_space _ _ h1),
        pySplitSpace_append _ _ (DecTok_no_space _ _ h2),
        pySplitSpace_append _ _ (DecTok_no_space _ _ h3),
        pySplitSpace_nosep _ (DecTok_no_space _ _ h4)]
    simp only [List.mapM_cons, List.mapM_nil,
      pyIntTrunc_of_DecTok t1 v1 h1, pyIntTrunc_of_DecTok t2 v2 h2,
      pyIntTrunc_of_DecTok t3 v3 h3, pyIntTrunc_of_DecTok t4 v4 h4,
      Option.pure_def, Option.bind_eq_bind, Option.some_bind]
  · intro doc cs h
    unfold resolveBoundingBox
    rw [h]
  · intro p rest
    refine ⟨rfl, ?_⟩
    intro b1 b2 b3 b4 hb
    have hfold : rest.foldl boundsStep (p.1, p.2, p.1, p.2) = (b1, b2, b3, b4) := hb
    constructor
    · intro q hq
      rcases List.mem_cons.1 hq with rfl | hq
      · obtain ⟨i1, i2, i3, i4⟩ := boundsStep_mono rest (q.1, q.2, q.1, q.2)
        rw [hfold] at i1 i2 i3 i4
        exact ⟨i1, i2, i3, i4⟩
      · obtain ⟨i1, i2, i3, i4⟩ := boundsStep_encloses rest (p.1, p.2, p.1, p.2) q hq
        rw [hfold] at i1 i2 i3 i4
        exact ⟨i1, i2, i3, i4⟩
    · obtain ⟨a1, a2, a3, a4⟩ := boundsStep_attained rest (p.1, p.2, p.1, p.2)
      rw [hfold] at a1 a2 a3 a4
      exact ⟨a1, a2, a3, a4⟩

/-- Witness for C8: the claim's own example — declared box `0 0 0 0`
with stored points spanning `(5,5)`–`(15,25)` resolves to the computed
box `(5,5,15,25)`, not `(0,0,0,0)`. -/
theorem c8_bbox_resolution_witness :
    resolveBoundingBox "5 5 m\n15 25 l\n%%BoundingBox: 0 0 0 0".data
        [[BOp.move (5, 5), BOp.line (15, 25)]] = .ok (5, 5, 15, 25) ∧
    truncQ (decTokVal false ['0'] []) = 0 := by
  have hz : DecTok ['0'] 0 := by
    refine ⟨false, ['0'], none, rfl, by simp, by decide, trivial, ?_⟩
    simp [decTokVal, fracVal, natOfDigits]
  have h := c8_bbox_resolution.1 "5 5 m\n15 25 l\n%%BoundingBox: 0 0 0 0".data
    [[BOp.move (5, 5), BOp.line (15, 25)]] ['0'] ['0'] ['0'] ['0'] 0 0 0 0
    hz hz hz hz (by decide)
  have htr : truncQ (0 : ℚ) = 0 := by
    rw [truncQ, if_pos le_rfl, Int.floor_zero]
  rw [h]
  refine ⟨?_, by simpa [decTokVal, fracVal, natOfDigits] using htr⟩
  rw [if_pos (by rw [htr])]
  decide!

end AicbTools
